import Mathlib

/-!
# Verification of `subsample_raw_fastq`

A shallow embedding of `src/bin/subsample_single_end_fastq.c` and
`src/bin/subsample_paired_fastq.c`, and theorems about the two sampling
drivers, the record reader and writer, and the option parsers.

Modelling conventions.

* A `char` is a natural number (`Byte`); `NUL = 0`, `NL = 10`.
* An input `gzFile` is the list of decompressed bytes not yet consumed.
* An output `FILE *` is the bytes accepted so far, the number of `fprintf`
  calls made on it, and an oracle telling which calls the sink accepts.
* A `char[MAX_LINE_LEN]` line buffer is the list of the bytes up to and
  including the terminating NUL written by `gzgets`.
* The C library generator (`srand`, `rand`) is a parameter `Rng`.
* `long` counters are natural numbers (exact below `2 ^ 63` records).
* The `while` loops carry a fuel argument; the drivers supply the input
  length plus one, which is shown to be enough.
-/

set_option autoImplicit false

namespace SubsampleFastq

/-! ## Bytes, streams and the C library -/

/-- A C `char` value. -/
abbrev Byte := Nat

/-- The string terminator. -/
abbrev NUL : Byte := 0

/-- The newline character. -/
abbrev NL : Byte := 10

/-- Line buffer size, `#define MAX_LINE_LEN 1024`. -/
def MAX_LINE_LEN : Nat := 1024

/-- The bytes one `gzgets` call transfers when there is room for `n` more,
paired with the unread rest: copying stops after a newline has been copied,
when the room is used up, or at end of file. -/
def gzgets_take : Nat → List Byte → List Byte × List Byte
  | 0, s => ([], s)
  | _ + 1, [] => ([], [])
  | n + 1, b :: s =>
    if b = NL then ([b], s)
    else (b :: (gzgets_take n s).1, (gzgets_take n s).2)

/-- The zlib call `gzgets(file, buf, len)`: reads at most `len - 1` bytes, NUL
terminates them, and returns `none` (NULL) when nothing could be read. The
result is the new buffer content and the advanced file. -/
def gzgets (file : List Byte) (len : Nat) : Option (List Byte × List Byte) :=
  if (gzgets_take (len - 1) file).1 = [] then none
  else some ((gzgets_take (len - 1) file).1 ++ [NUL], (gzgets_take (len - 1) file).2)

/-- The call `strcspn(s, "\n")`: the number of leading bytes of the C string
in `s` that are not a newline. -/
def strcspn_nl (s : List Byte) : Nat :=
  (s.takeWhile (fun b => b != NUL && b != NL)).length

/-- The C string held in a buffer: the bytes before the first NUL. -/
def cstr (buf : List Byte) : List Byte :=
  buf.takeWhile (fun b => b != NUL)

/-- An output stream (`FILE *`). -/
structure FILE where
  /-- Bytes the sink has accepted. -/
  data : List Byte
  /-- Number of `fprintf` calls made so far. -/
  calls : Nat
  /-- Whether the sink accepts the call with the given index. -/
  accept : Nat → Bool

/-- The call `fprintf(file, "%s\n", s)`: the new stream and the returned value
(the number of bytes written, or a negative number on failure). -/
def fprintf_line (file : FILE) (s : List Byte) : FILE × Int :=
  if file.accept file.calls then
    ({ file with data := file.data ++ (cstr s ++ [NL]), calls := file.calls + 1 },
      (((cstr s).length + 1 : Nat) : Int))
  else ({ file with calls := file.calls + 1 }, -1)

/-- The C library pseudo-random generator: `srand` installs a state, `rand`
returns a non-negative `int` and advances the state. -/
structure Rng where
  /-- Hidden generator state. -/
  State : Type
  /-- State installed by `srand(seed)`. -/
  srand : Int → State
  /-- One `rand()` call. -/
  rand : State → Nat × State

/-- The portable sample generator of the C standard, with a 32-bit state. -/
def sampleRng : Rng where
  State := Nat
  srand := fun seed => (seed % 4294967296).toNat
  rand := fun s =>
    (((s * 1103515245 + 12345) % 4294967296) / 65536 % 32768,
      (s * 1103515245 + 12345) % 4294967296)

/-! ## Record reader and writer (identical in both programs) -/

/-- The four line buffers `char lines[4][MAX_LINE_LEN]`. -/
abbrev Lines := List (List Byte)

/-- Line buffers before anything has been stored in them. -/
def Lines.init : Lines := [[], [], [], []]

/-- The loop of `read_fastq_record` from index `i` with `k` iterations left. -/
def read_fastq_record_from : Nat → Nat → List Byte → Lines → Bool × Lines × List Byte
  | _, 0, file, lines => (true, lines, file)
  | i, k + 1, file, lines =>
    match gzgets file MAX_LINE_LEN with
    | none => (false, lines, file)
    | some (buf, file') =>
      read_fastq_record_from (i + 1) k file' (lines.set i (buf.set (strcspn_nl buf) NUL))

/-- The function `read_fastq_record`: the returned flag, the line buffers and
the advanced file. -/
def read_fastq_record (file : List Byte) (lines : Lines) : Bool × Lines × List Byte :=
  read_fastq_record_from 0 4 file lines

/-- The loop of `write_fastq_record` from index `i` with `k` iterations left;
the value of each `fprintf` is dropped. -/
def write_fastq_record_from : Nat → Nat → FILE → Lines → FILE
  | _, 0, file, _ => file
  | i, k + 1, file, lines =>
    write_fastq_record_from (i + 1) k (fprintf_line file (lines.getD i [])).1 lines

/-- The function `write_fastq_record` (returns `void`). -/
def write_fastq_record (file : FILE) (lines : Lines) : FILE :=
  write_fastq_record_from 0 4 file lines

/-- What the programs print on standard output. -/
inductive Msg
  /-- The two start-up lines: percentage and seed. -/
  | banner (fraction seed : Int)
  /-- The line with the total number of reads or pairs. -/
  | total (n : Nat)
  /-- The line with the kept count and `(double)num / den * 100`; the operands
  of the division are recorded, not its floating-point value. -/
  | kept (n num den : Nat)
  deriving DecidableEq

/-! ## Single-end driver -/

/-- The fields of the single-end `Config` the driver uses. -/
structure SingleEnd.Config where
  in_file : List Byte
  out_file : FILE
  subsample_fraction : Int
  seed : Int
  verbose : Bool

/-- Local state of `subsample_single_end_fastq`. -/
structure SingleState (g : Rng) where
  in_file : List Byte
  out_file : FILE
  lines : Lines
  total_reads : Nat
  kept_reads : Nat
  rng : g.State

/-- The `while (read_fastq_record(...))` loop of the single-end driver. -/
def single_loop (g : Rng) (fraction : Int) : Nat → SingleState g → Option (SingleState g)
  | 0, _ => none
  | fuel + 1, st =>
    if (read_fastq_record st.in_file st.lines).1 then
      if (((g.rand st.rng).1 % 100 : Nat) : Int) < fraction then
        single_loop g fraction fuel
          { in_file := (read_fastq_record st.in_file st.lines).2.2
            out_file := write_fastq_record st.out_file (read_fastq_record st.in_file st.lines).2.1
            lines := (read_fastq_record st.in_file st.lines).2.1
            total_reads := st.total_reads + 1
            kept_reads := st.kept_reads + 1
            rng := (g.rand st.rng).2 }
      else
        single_loop g fraction fuel
          { in_file := (read_fastq_record st.in_file st.lines).2.2
            out_file := st.out_file
            lines := (read_fastq_record st.in_file st.lines).2.1
            total_reads := st.total_reads + 1
            kept_reads := st.kept_reads
            rng := (g.rand st.rng).2 }
    else
      some { st with
        in_file := (read_fastq_record st.in_file st.lines).2.2
        lines := (read_fastq_record st.in_file st.lines).2.1 }

/-- Result of a run of the single-end driver that returned. -/
structure SingleRun (g : Rng) where
  final : SingleState g
  stdout : List Msg

/-- The function `subsample_single_end_fastq`. -/
def subsample_single_end_fastq (g : Rng) (config : SingleEnd.Config) : Option (SingleRun g) :=
  (single_loop g config.subsample_fraction (config.in_file.length + 1)
      { in_file := config.in_file
        out_file := config.out_file
        lines := Lines.init
        total_reads := 0
        kept_reads := 0
        rng := g.srand config.seed }).map fun st =>
    { final := st
      stdout :=
        (if config.verbose then [Msg.banner config.subsample_fraction config.seed] else []) ++
        (if config.verbose then
          [Msg.total st.total_reads, Msg.kept st.kept_reads st.kept_reads st.total_reads]
         else []) }

/-! ## Paired driver -/

/-- The fields of the paired `Config` the driver uses. -/
structure Paired.Config where
  r1_in : List Byte
  r2_in : List Byte
  r1_out : FILE
  r2_out : FILE
  subsample_fraction : Int
  seed : Int
  verbose : Bool

/-- Local state of `subsample_paired_fastq`. -/
structure PairedState (g : Rng) where
  r1_in : List Byte
  r2_in : List Byte
  r1_out : FILE
  r2_out : FILE
  r1_lines : Lines
  r2_lines : Lines
  total_pairs : Nat
  kept_pairs : Nat
  r1_count : Nat
  r2_count : Nat
  rng : g.State

/-- How the `while (1)` loop of the paired driver ends. -/
inductive PairedEnd (g : Rng)
  /-- Left by `break`: both reads failed. -/
  | finished (st : PairedState g)
  /-- The unpaired-reads message with its two counts, then `exit(EXIT_FAILURE)`. -/
  | unpaired (r1_reads r2_reads : Nat) (st : PairedState g)

/-- The `while (1)` loop of the paired driver. -/
def paired_loop (g : Rng) (fraction : Int) : Nat → PairedState g → Option (PairedEnd g)
  | 0, _ => none
  | fuel + 1, st =>
    if (read_fastq_record st.r1_in st.r1_lines).1 = false ∧
        (read_fastq_record st.r2_in st.r2_lines).1 = false then
      some (PairedEnd.finished { st with
        r1_in := (read_fastq_record st.r1_in st.r1_lines).2.2
        r2_in := (read_fastq_record st.r2_in st.r2_lines).2.2
        r1_lines := (read_fastq_record st.r1_in st.r1_lines).2.1
        r2_lines := (read_fastq_record st.r2_in st.r2_lines).2.1 })
    else if (read_fastq_record st.r1_in st.r1_lines).1 = false ∨
        (read_fastq_record st.r2_in st.r2_lines).1 = false then
      some (PairedEnd.unpaired
        (st.r1_count + (if (read_fastq_record st.r1_in st.r1_lines).1 then 1 else 0))
        (st.r2_count + (if (read_fastq_record st.r2_in st.r2_lines).1 then 1 else 0))
        { st with
          r1_in := (read_fastq_record st.r1_in st.r1_lines).2.2
          r2_in := (read_fastq_record st.r2_in st.r2_lines).2.2
          r1_lines := (read_fastq_record st.r1_in st.r1_lines).2.1
          r2_lines := (read_fastq_record st.r2_in st.r2_lines).2.1 })
    else if (((g.rand st.rng).1 % 100 : Nat) : Int) < fraction then
      paired_loop g fraction fuel
        { r1_in := (read_fastq_record st.r1_in st.r1_lines).2.2
          r2_in := (read_fastq_record st.r2_in st.r2_lines).2.2
          r1_out := write_fastq_record st.r1_out (read_fastq_record st.r1_in st.r1_lines).2.1
          r2_out := write_fastq_record st.r2_out (read_fastq_record st.r2_in st.r2_lines).2.1
          r1_lines := (read_fastq_record st.r1_in st.r1_lines).2.1
          r2_lines := (read_fastq_record st.r2_in st.r2_lines).2.1
          total_pairs := st.total_pairs + 1
          kept_pairs := st.kept_pairs + 1
          r1_count := st.r1_count + 1
          r2_count := st.r2_count + 1
          rng := (g.rand st.rng).2 }
    else
      paired_loop g fraction fuel
        { r1_in := (read_fastq_record st.r1_in st.r1_lines).2.2
          r2_in := (read_fastq_record st.r2_in st.r2_lines).2.2
          r1_out := st.r1_out
          r2_out := st.r2_out
          r1_lines := (read_fastq_record st.r1_in st.r1_lines).2.1
          r2_lines := (read_fastq_record st.r2_in st.r2_lines).2.1
          total_pairs := st.total_pairs + 1
          kept_pairs := st.kept_pairs
          r1_count := st.r1_count + 1
          r2_count := st.r2_count + 1
          rng := (g.rand st.rng).2 }

/-- Result of a run of the paired driver. -/
structure PairedRun (g : Rng) where
  final : PairedState g
  stdout : List Msg
  /-- The counts of the unpaired-reads message when the run ended in
  `exit(EXIT_FAILURE)`, `none` when the function returned. -/
  failure : Option (Nat × Nat)

/-- The exit status of the paired program once `parse_args` has returned:
`EXIT_FAILURE` from the unpaired-reads exit, otherwise `main` returns
`EXIT_SUCCESS`. -/
def PairedRun.status {g : Rng} (run : PairedRun g) : Nat :=
  match run.failure with
  | some _ => 1
  | none => 0

/-- The function `subsample_paired_fastq`. -/
def subsample_paired_fastq (g : Rng) (config : Paired.Config) : Option (PairedRun g) :=
  (paired_loop g config.subsample_fraction (config.r1_in.length + 1)
      { r1_in := config.r1_in
        r2_in := config.r2_in
        r1_out := config.r1_out
        r2_out := config.r2_out
        r1_lines := Lines.init
        r2_lines := Lines.init
        total_pairs := 0
        kept_pairs := 0
        r1_count := 0
        r2_count := 0
        rng := g.srand config.seed }).map fun e =>
    match e with
    | PairedEnd.finished st =>
      { final := st
        stdout :=
          (if config.verbose then [Msg.banner config.subsample_fraction config.seed] else []) ++
          (if config.verbose then
            [Msg.total st.total_pairs, Msg.kept st.kept_pairs st.kept_pairs st.total_pairs]
           else [])
        failure := none }
    | PairedEnd.unpaired n1 n2 st =>
      { final := st
        stdout :=
          if config.verbose then [Msg.banner config.subsample_fraction config.seed] else []
        failure := some (n1, n2) }

/-! ## Option parsing -/

/-- A call that opens a file or a pipe. -/
inductive IoCall
  | gzopen (path : String)
  | fopen (path : String)
  | popen (command : String)
  deriving DecidableEq

/-- Which open calls succeed. -/
structure FileSystem where
  gzopen_ok : String → Bool
  fopen_ok : String → Bool
  popen_ok : String → Bool

/-- Whether a call returns a non-NULL handle. -/
def FileSystem.ok (fs : FileSystem) : IoCall → Bool
  | IoCall.gzopen p => fs.gzopen_ok p
  | IoCall.fopen p => fs.fopen_ok p
  | IoCall.popen c => fs.popen_ok c

/-- The shell command built by `snprintf(command, 512, "gzip -c > %s", optarg)`. -/
def gzip_command (optarg : String) : String :=
  String.mk (("gzip -c > " ++ optarg).toList.take 511)

/-- The call that opens an output path, given the current `compress_output`. -/
def open_output (compress_output : Bool) (optarg : String) : IoCall :=
  if compress_output then IoCall.popen (gzip_command optarg) else IoCall.fopen optarg

/-- Why `parse_args` ended the process. -/
inductive ParseExit
  | open_failed
  | bad_fraction
  | unknown_option
  | help
  | missing_arguments
  deriving DecidableEq

/-- The exit status: only `-h` exits with `EXIT_SUCCESS`. -/
def ParseExit.status : ParseExit → Nat
  | ParseExit.help => 0
  | _ => 1

/-- One option as `getopt` returns it for `"i:o:f:s:zvh"`; the argument of
`-f` and `-s` is the value `atoi` gives. -/
inductive SingleOpt
  | i (optarg : String)
  | o (optarg : String)
  | f (value : Int)
  | s (value : Int)
  | z
  | v
  | h
  | unknown
  deriving DecidableEq

/-- The single-end `Config` as `parse_args` fills it; a handle is the call
that returned it, `none` is NULL. -/
structure SingleArgs where
  in_file : Option IoCall
  out_file : Option IoCall
  subsample_fraction : Int
  seed : Int
  verbose : Bool
  compress_output : Bool
  deriving DecidableEq

/-- The `while ((opt = getopt(...)) != -1)` loop of the single-end
`parse_args`: the open calls made so far, and the exit or the configuration. -/
def single_parse_loop (fs : FileSystem) :
    List SingleOpt → SingleArgs → List IoCall → List IoCall × Except ParseExit SingleArgs
  | [], config, calls => (calls, Except.ok config)
  | SingleOpt.i optarg :: rest, config, calls =>
    if fs.ok (IoCall.gzopen optarg) then
      single_parse_loop fs rest { config with in_file := some (IoCall.gzopen optarg) }
        (calls ++ [IoCall.gzopen optarg])
    else (calls ++ [IoCall.gzopen optarg], Except.error ParseExit.open_failed)
  | SingleOpt.o optarg :: rest, config, calls =>
    if fs.ok (open_output config.compress_output optarg) then
      single_parse_loop fs rest
        { config with out_file := some (open_output config.compress_output optarg) }
        (calls ++ [open_output config.compress_output optarg])
    else (calls ++ [open_output config.compress_output optarg], Except.error ParseExit.open_failed)
  | SingleOpt.f value :: rest, config, calls =>
    if value < 1 ∨ value > 100 then (calls, Except.error ParseExit.bad_fraction)
    else single_parse_loop fs rest { config with subsample_fraction := value } calls
  | SingleOpt.s value :: rest, config, calls =>
    single_parse_loop fs rest { config with seed := value } calls
  | SingleOpt.z :: rest, config, calls =>
    single_parse_loop fs rest { config with compress_output := true } calls
  | SingleOpt.v :: rest, config, calls =>
    single_parse_loop fs rest { config with verbose := true } calls
  | SingleOpt.h :: _, _, calls => (calls, Except.error ParseExit.help)
  | SingleOpt.unknown :: _, _, calls => (calls, Except.error ParseExit.unknown_option)

/-- The single-end `parse_args`; `now` is the value of `time(NULL)`. -/
def SingleEnd.parse_args (fs : FileSystem) (now : Int) (opts : List SingleOpt) :
    List IoCall × Except ParseExit SingleArgs :=
  match single_parse_loop fs opts
      { in_file := none, out_file := none, subsample_fraction := 10, seed := now,
        verbose := false, compress_output := false } [] with
  | (calls, Except.error e) => (calls, Except.error e)
  | (calls, Except.ok config) =>
    if config.in_file.isNone ∨ config.out_file.isNone then
      (calls, Except.error ParseExit.missing_arguments)
    else (calls, Except.ok config)

/-- One option as `getopt` returns it for `"a:b:x:y:f:s:zvh"`. -/
inductive PairedOpt
  | a (optarg : String)
  | b (optarg : String)
  | x (optarg : String)
  | y (optarg : String)
  | f (value : Int)
  | s (value : Int)
  | z
  | v
  | h
  | unknown
  deriving DecidableEq

/-- The paired `Config` as `parse_args` fills it. -/
structure PairedArgs where
  r1_in : Option IoCall
  r2_in : Option IoCall
  r1_out : Option IoCall
  r2_out : Option IoCall
  subsample_fraction : Int
  seed : Int
  verbose : Bool
  compress_output : Bool
  deriving DecidableEq

/-- The option loop of the paired `parse_args`. -/
def paired_parse_loop (fs : FileSystem) :
    List PairedOpt → PairedArgs → List IoCall → List IoCall × Except ParseExit PairedArgs
  | [], config, calls => (calls, Except.ok config)
  | PairedOpt.a optarg :: rest, config, calls =>
    if fs.ok (IoCall.gzopen optarg) then
      paired_parse_loop fs rest { config with r1_in := some (IoCall.gzopen optarg) }
        (calls ++ [IoCall.gzopen optarg])
    else (calls ++ [IoCall.gzopen optarg], Except.error ParseExit.open_failed)
  | PairedOpt.b optarg :: rest, config, calls =>
    if fs.ok (IoCall.gzopen optarg) then
      paired_parse_loop fs rest { config with r2_in := some (IoCall.gzopen optarg) }
        (calls ++ [IoCall.gzopen optarg])
    else (calls ++ [IoCall.gzopen optarg], Except.error ParseExit.open_failed)
  | PairedOpt.x optarg :: rest, config, calls =>
    if fs.ok (open_output config.compress_output optarg) then
      paired_parse_loop fs rest
        { config with r1_out := some (open_output config.compress_output optarg) }
        (calls ++ [open_output config.compress_output optarg])
    else (calls ++ [open_output config.compress_output optarg], Except.error ParseExit.open_failed)
  | PairedOpt.y optarg :: rest, config, calls =>
    if fs.ok (open_output config.compress_output optarg) then
      paired_parse_loop fs rest
        { config with r2_out := some (open_output config.compress_output optarg) }
        (calls ++ [open_output config.compress_output optarg])
    else (calls ++ [open_output config.compress_output optarg], Except.error ParseExit.open_failed)
  | PairedOpt.f value :: rest, config, calls =>
    if value < 1 ∨ value > 100 then (calls, Except.error ParseExit.bad_fraction)
    else paired_parse_loop fs rest { config with subsample_fraction := value } calls
  | PairedOpt.s value :: rest, config, calls =>
    paired_parse_loop fs rest { config with seed := value } calls
  | PairedOpt.z :: rest, config, calls =>
    paired_parse_loop fs rest { config with compress_output := true } calls
  | PairedOpt.v :: rest, config, calls =>
    paired_parse_loop fs rest { config with verbose := true } calls
  | PairedOpt.h :: _, _, calls => (calls, Except.error ParseExit.help)
  | PairedOpt.unknown :: _, _, calls => (calls, Except.error ParseExit.unknown_option)

/-- The paired `parse_args`; `now` is the value of `time(NULL)`. -/
def Paired.parse_args (fs : FileSystem) (now : Int) (opts : List PairedOpt) :
    List IoCall × Except ParseExit PairedArgs :=
  match paired_parse_loop fs opts
      { r1_in := none, r2_in := none, r1_out := none, r2_out := none,
        subsample_fraction := 10, seed := now, verbose := false, compress_output := false }
      [] with
  | (calls, Except.error e) => (calls, Except.error e)
  | (calls, Except.ok config) =>
    if config.r1_in.isNone ∨ config.r2_in.isNone ∨ config.r1_out.isNone ∨
        config.r2_out.isNone then
      (calls, Except.error ParseExit.missing_arguments)
    else (calls, Except.ok config)

/-! ## Input streams built from records -/

/-- The lines of a stream as bytes: each line followed by one newline. -/
def encodeLines : List (List Byte) → List Byte
  | [] => []
  | l :: ls => l ++ NL :: encodeLines ls

/-- A list of records (each a list of lines) as a byte stream. -/
def encode : List (List (List Byte)) → List Byte
  | [] => []
  | r :: rs => encodeLines r ++ encode rs

/-- A line that one `gzgets` call reads whole: at most `MAX_LINE_LEN - 2`
bytes, none of them a newline. -/
abbrev LineFits (l : List Byte) : Prop :=
  l.length ≤ MAX_LINE_LEN - 2 ∧ NL ∉ l

/-- A record of four lines that fit the line buffer. -/
abbrev RecordFits (r : List (List Byte)) : Prop :=
  r.length = 4 ∧ ∀ l ∈ r, LineFits l

/-- A record of four lines that fit the line buffer and hold no NUL byte. -/
abbrev RecordClean (r : List (List Byte)) : Prop :=
  r.length = 4 ∧ ∀ l ∈ r, LineFits l ∧ NUL ∉ l

/-- The buffer `read_fastq_record` leaves for an input line that fits. -/
def stored (l : List Byte) : List Byte :=
  (l ++ [NL, NUL]).set (strcspn_nl (l ++ [NL, NUL])) NUL

/-- The keep decisions of the next `n` records, starting from a generator
state: record `i` is kept when the `i`-th draw modulo 100 is below the
percentage. -/
def keepMask (g : Rng) (fraction : Int) : g.State → Nat → List Bool
  | _, 0 => []
  | s, n + 1 =>
    decide ((((g.rand s).1 % 100 : Nat) : Int) < fraction) :: keepMask g fraction (g.rand s).2 n

/-- The generator state after `n` draws. -/
def rngAfter (g : Rng) : g.State → Nat → g.State
  | s, 0 => s
  | s, n + 1 => rngAfter g (g.rand s).2 n

/-- The values of the next `n` draws. -/
def draws (g : Rng) : g.State → Nat → List Nat
  | _, 0 => []
  | s, n + 1 => (g.rand s).1 :: draws g (g.rand s).2 n

/-- The elements of a list at the positions a mask marks. -/
def select {α : Type} : List Bool → List α → List α
  | true :: m, x :: xs => x :: select m xs
  | false :: m, _ :: xs => select m xs
  | _, _ => []

/-- Writing a list of buffered records, one `write_fastq_record` each. -/
def writeAll (file : FILE) (recs : List Lines) : FILE :=
  recs.foldl write_fastq_record file

/-! ## Views, open calls and sample data used in the statements -/

/-- A sink that accepts every write. -/
def okSink : FILE := { data := [], calls := 0, accept := fun _ => true }

/-- The record `@a / AC / + / II`. -/
def recA : List (List Byte) := [[64, 97], [65, 67], [43], [73, 73]]

/-- The record `@b / G / + / F`. -/
def recB : List (List Byte) := [[64, 98], [71], [43], [70]]

/-- The record `@c / TTA / + / FFI`. -/
def recC : List (List Byte) := [[64, 99], [84, 84, 65], [43], [70, 70, 73]]

/-- The record `@x / C / + / H`. -/
def recX : List (List Byte) := [[64, 120], [67], [43], [72]]

/-- The record `@y / GG / + / HH`. -/
def recY : List (List Byte) := [[64, 121], [71, 71], [43], [72, 72]]

/-- The record `@z / T / + / I`. -/
def recZ : List (List Byte) := [[64, 122], [84], [43], [73]]

/-- Whether a single-end option names a file to open. -/
def SingleOpt.opens : SingleOpt → Bool
  | SingleOpt.i _ => true
  | SingleOpt.o _ => true
  | _ => false

/-- The open calls a run of single-end options makes, in order, starting from
the given value of `compress_output`. -/
def single_open_calls : Bool → List SingleOpt → List IoCall
  | _, [] => []
  | c, SingleOpt.i optarg :: rest => IoCall.gzopen optarg :: single_open_calls c rest
  | c, SingleOpt.o optarg :: rest => open_output c optarg :: single_open_calls c rest
  | _, SingleOpt.z :: rest => single_open_calls true rest
  | c, SingleOpt.f _ :: rest => single_open_calls c rest
  | c, SingleOpt.s _ :: rest => single_open_calls c rest
  | c, SingleOpt.v :: rest => single_open_calls c rest
  | c, SingleOpt.h :: rest => single_open_calls c rest
  | c, SingleOpt.unknown :: rest => single_open_calls c rest

/-- Whether a paired option names a file to open. -/
def PairedOpt.opens : PairedOpt → Bool
  | PairedOpt.a _ => true
  | PairedOpt.b _ => true
  | PairedOpt.x _ => true
  | PairedOpt.y _ => true
  | _ => false

/-- The open calls a run of paired options makes, in order, starting from the
given value of `compress_output`. -/
def paired_open_calls : Bool → List PairedOpt → List IoCall
  | _, [] => []
  | c, PairedOpt.a optarg :: rest => IoCall.gzopen optarg :: paired_open_calls c rest
  | c, PairedOpt.b optarg :: rest => IoCall.gzopen optarg :: paired_open_calls c rest
  | c, PairedOpt.x optarg :: rest => open_output c optarg :: paired_open_calls c rest
  | c, PairedOpt.y optarg :: rest => open_output c optarg :: paired_open_calls c rest
  | _, PairedOpt.z :: rest => paired_open_calls true rest
  | c, PairedOpt.f _ :: rest => paired_open_calls c rest
  | c, PairedOpt.s _ :: rest => paired_open_calls c rest
  | c, PairedOpt.v :: rest => paired_open_calls c rest
  | c, PairedOpt.h :: rest => paired_open_calls c rest
  | c, PairedOpt.unknown :: rest => paired_open_calls c rest

/-- A file system on which every open call succeeds. -/
def openFs : FileSystem :=
  { gzopen_ok := fun _ => true, fopen_ok := fun _ => true, popen_ok := fun _ => true }

/-! ## The reader on lines that fit -/

theorem gzgets_take_line (l rest : List Byte) (h : NL ∉ l) :
    ∀ n, l.length < n → gzgets_take n (l ++ NL :: rest) = (l ++ [NL], rest) := by
  induction l with
  | nil =>
    intro n hn
    cases n with
    | zero => omega
    | succ n => simp [gzgets_take]
  | cons b l ih =>
    intro n hn
    cases n with
    | zero => omega
    | succ n =>
      have hb : b ≠ NL := fun e => h (by simp [e])
      have hl : NL ∉ l := fun e => h (by simp [e])
      have hlen : l.length < n := by simpa using hn
      simp [gzgets_take, hb, ih hl n hlen]

theorem gzgets_line (l rest : List Byte) (h : LineFits l) :
    gzgets (l ++ NL :: rest) MAX_LINE_LEN = some (l ++ [NL, NUL], rest) := by
  have hlen : l.length < MAX_LINE_LEN - 1 := by
    have := h.1
    simp [MAX_LINE_LEN] at this ⊢
    omega
  simp [gzgets, gzgets_take_line l rest h.2 _ hlen]

theorem gzgets_nil (len : Nat) : gzgets [] len = none := by
  cases h : len - 1 <;> simp [gzgets, gzgets_take, h]

theorem read_from_line (i k : Nat) (l rest : List Byte) (lines : Lines) (h : LineFits l) :
    read_fastq_record_from i (k + 1) (l ++ NL :: rest) lines =
      read_fastq_record_from (i + 1) k rest (lines.set i (stored l)) := by
  simp [read_fastq_record_from, gzgets_line l rest h, stored]

theorem read_from_nil (i k : Nat) (lines : Lines) :
    read_fastq_record_from i (k + 1) [] lines = (false, lines, []) := by
  simp [read_fastq_record_from, gzgets_nil]

/-- Reading one record whose lines fit: success, the four stored buffers, and
the file advanced past the record. -/
theorem read_record_fits (r : List (List Byte)) (rest : List Byte) (lines : Lines)
    (hr : RecordFits r) (hl : lines.length = 4) :
    read_fastq_record (encodeLines r ++ rest) lines = (true, r.map stored, rest) := by
  obtain ⟨h4, hf⟩ := hr
  match r, h4 with
  | [a, b, c, d], _ =>
    match lines, hl with
    | [w, x, y, z], _ =>
      have ha : LineFits a := hf a (by simp)
      have hb : LineFits b := hf b (by simp)
      have hc : LineFits c := hf c (by simp)
      have hd : LineFits d := hf d (by simp)
      simp only [read_fastq_record, encodeLines, List.append_assoc, List.cons_append,
        List.nil_append, read_from_line _ _ _ _ _ ha, read_from_line _ _ _ _ _ hb,
        read_from_line _ _ _ _ _ hc, read_from_line _ _ _ _ _ hd]
      simp [read_fastq_record_from]

/-- Fewer than four lines are left: the read reports the end of the stream. -/
theorem read_short_fails (ls : List (List Byte)) (lines : Lines)
    (hf : ∀ l ∈ ls, LineFits l) (hlen : ls.length < 4) :
    (read_fastq_record (encodeLines ls) lines).1 = false := by
  match ls, hlen with
  | [], _ => simp [read_fastq_record, encodeLines, read_from_nil]
  | [a], _ =>
    have ha : LineFits a := hf a (by simp)
    simp only [read_fastq_record, encodeLines, read_from_line _ _ _ _ _ ha, read_from_nil]
  | [a, b], _ =>
    have ha : LineFits a := hf a (by simp)
    have hb : LineFits b := hf b (by simp)
    simp only [read_fastq_record, encodeLines, read_from_line _ _ _ _ _ ha,
      read_from_line _ _ _ _ _ hb, read_from_nil]
  | [a, b, c], _ =>
    have ha : LineFits a := hf a (by simp)
    have hb : LineFits b := hf b (by simp)
    have hc : LineFits c := hf c (by simp)
    simp only [read_fastq_record, encodeLines, read_from_line _ _ _ _ _ ha,
      read_from_line _ _ _ _ _ hb, read_from_line _ _ _ _ _ hc, read_from_nil]

theorem encodeLines_append (xs ys : List (List Byte)) :
    encodeLines (xs ++ ys) = encodeLines xs ++ encodeLines ys := by
  induction xs with
  | nil => rfl
  | cons x xs ih => simp [encodeLines, ih]

theorem encode_append (xs ys : List (List (List Byte))) :
    encode (xs ++ ys) = encode xs ++ encode ys := by
  induction xs with
  | nil => rfl
  | cons x xs ih => simp [encode, ih]

/-- Four or more lines are left: the read succeeds. -/
theorem read_long_succeeds (ls : List (List Byte)) (lines : Lines)
    (hf : ∀ l ∈ ls, LineFits l) (hlen : 4 ≤ ls.length) :
    (read_fastq_record (encodeLines ls) lines).1 = true := by
  match ls, hlen with
  | a :: b :: c :: d :: rest, _ =>
    have ha : LineFits a := hf a (by simp)
    have hb : LineFits b := hf b (by simp)
    have hc : LineFits c := hf c (by simp)
    have hd : LineFits d := hf d (by simp)
    simp only [read_fastq_record, encodeLines, read_from_line _ _ _ _ _ ha,
      read_from_line _ _ _ _ _ hb, read_from_line _ _ _ _ _ hc, read_from_line _ _ _ _ _ hd]
    rfl

/-! ## The writer -/

theorem takeWhile_stop (p : Byte → Bool) (l r : List Byte) (x : Byte)
    (hl : ∀ b ∈ l, p b = true) (hx : p x = false) :
    (l ++ x :: r).takeWhile p = l := by
  induction l with
  | nil => simp [List.takeWhile, hx]
  | cons b l ih =>
    have hb : p b = true := hl b (by simp)
    have hl2 : ∀ c ∈ l, p c = true := fun c hc => hl c (by simp [hc])
    simp [List.takeWhile, hb, ih hl2]

/-- The C string stored for a line without NUL and newline is the line. -/
theorem cstr_stored (l : List Byte) (hn : NL ∉ l) (hz : NUL ∉ l) : cstr (stored l) = l := by
  have h1 : strcspn_nl (l ++ [NL, NUL]) = l.length := by
    unfold strcspn_nl
    rw [show l ++ [NL, NUL] = l ++ NL :: [NUL] from rfl, takeWhile_stop _ l [NUL] NL]
    · intro b hb
      have e1 : b ≠ NL := fun e => hn (e ▸ hb)
      have e2 : b ≠ NUL := fun e => hz (e ▸ hb)
      simp [e1, e2]
    · simp
  have h2 : stored l = l ++ NUL :: [NUL] := by
    unfold stored
    rw [h1]
    simp
  rw [h2]
  unfold cstr
  apply takeWhile_stop
  · intro b hb
    have e2 : b ≠ NUL := fun e => hz (e ▸ hb)
    simp [e2]
  · simp

theorem fprintf_line_accept (file : FILE) (s : List Byte) :
    (fprintf_line file s).1.accept = file.accept := by
  unfold fprintf_line
  split <;> rfl

theorem write_from_accept (file : FILE) (lines : Lines) (i k : Nat) :
    (write_fastq_record_from i k file lines).accept = file.accept := by
  induction k generalizing i file with
  | zero => rfl
  | succ k ih => simp [write_fastq_record_from, ih, fprintf_line_accept]

theorem write_record_accept (file : FILE) (lines : Lines) :
    (write_fastq_record file lines).accept = file.accept :=
  write_from_accept file lines 0 4

theorem writeAll_accept (recs : List Lines) (file : FILE) :
    (writeAll file recs).accept = file.accept := by
  induction recs generalizing file with
  | nil => rfl
  | cons r rs ih =>
    show (writeAll (write_fastq_record file r) rs).accept = file.accept
    rw [ih, write_record_accept]

theorem fprintf_line_data (file : FILE) (s : List Byte) (h : ∀ n, file.accept n = true) :
    (fprintf_line file s).1.data = file.data ++ (cstr s ++ [NL]) := by
  simp [fprintf_line, h]

/-- On a sink that accepts every write, a clean record is written as its four
lines, each followed by one newline. -/
theorem write_record_data (file : FILE) (r : List (List Byte))
    (h : ∀ n, file.accept n = true) (hr : RecordClean r) :
    (write_fastq_record file (r.map stored)).data = file.data ++ encodeLines r := by
  obtain ⟨h4, hf⟩ := hr
  match r, h4 with
  | [a, b, c, d], _ =>
    have ha := hf a (by simp)
    have hb := hf b (by simp)
    have hc := hf c (by simp)
    have hd := hf d (by simp)
    simp [write_fastq_record, write_fastq_record_from, fprintf_line, h, encodeLines,
      cstr_stored a ha.1.2 ha.2, cstr_stored b hb.1.2 hb.2, cstr_stored c hc.1.2 hc.2,
      cstr_stored d hd.1.2 hd.2]

theorem writeAll_data (recs : List (List (List Byte))) (file : FILE)
    (h : ∀ n, file.accept n = true) (hr : ∀ r ∈ recs, RecordClean r) :
    (writeAll file (recs.map (List.map stored))).data = file.data ++ encode recs := by
  induction recs generalizing file with
  | nil => simp [writeAll, encode]
  | cons r rs ih =>
    have hacc : ∀ n, (write_fastq_record file (r.map stored)).accept n = true := by
      intro n
      rw [write_record_accept]
      exact h n
    show (writeAll (write_fastq_record file (r.map stored)) (rs.map (List.map stored))).data = _
    rw [ih _ hacc (fun x hx => hr x (by simp [hx])),
      write_record_data file r h (hr r (by simp))]
    simp [encode]

/-! ## Masks -/

theorem select_map {α β : Type} (f : α → β) (m : List Bool) (xs : List α) :
    select m (xs.map f) = (select m xs).map f := by
  induction m generalizing xs with
  | nil => cases xs <;> rfl
  | cons b m ih =>
    cases xs with
    | nil => cases b <;> rfl
    | cons x xs => cases b <;> simp [select, ih]

theorem select_sublist {α : Type} (m : List Bool) (xs : List α) :
    (select m xs).Sublist xs := by
  induction m generalizing xs with
  | nil => cases xs <;> simp [select]
  | cons b m ih =>
    cases xs with
    | nil => cases b <;> simp [select]
    | cons x xs =>
      cases b
      · exact (ih xs).cons x
      · exact (ih xs).cons₂ x

theorem select_length {α β : Type} (m : List Bool) (xs : List α) (ys : List β)
    (h : xs.length = ys.length) : (select m xs).length = (select m ys).length := by
  induction m generalizing xs ys with
  | nil => cases xs <;> cases ys <;> simp [select]
  | cons b m ih =>
    cases xs with
    | nil =>
      cases ys with
      | nil => cases b <;> simp [select]
      | cons y ys => simp at h
    | cons x xs =>
      cases ys with
      | nil => simp at h
      | cons y ys =>
        have h2 : xs.length = ys.length := by simpa using h
        cases b <;> simp [select, ih xs ys h2]

theorem select_count {α : Type} (m : List Bool) (xs : List α) (h : m.length = xs.length) :
    (select m xs).length = m.count true := by
  induction m generalizing xs with
  | nil => cases xs <;> simp [select]
  | cons b m ih =>
    cases xs with
    | nil => simp at h
    | cons x xs =>
      have h2 : m.length = xs.length := by simpa using h
      cases b <;> simp [select, ih xs h2]

theorem select_all_true {α : Type} (m : List Bool) (xs : List α) (h : m.length = xs.length)
    (ht : ∀ b ∈ m, b = true) : select m xs = xs := by
  induction m generalizing xs with
  | nil =>
    cases xs with
    | nil => rfl
    | cons x xs => simp at h
  | cons b m ih =>
    cases xs with
    | nil => simp at h
    | cons x xs =>
      have h2 : m.length = xs.length := by simpa using h
      have hb : b = true := ht b (by simp)
      subst hb
      simp [select, ih xs h2 (fun c hc => ht c (by simp [hc]))]

theorem keepMask_length (g : Rng) (fraction : Int) (n : Nat) (s : g.State) :
    (keepMask g fraction s n).length = n := by
  induction n generalizing s with
  | zero => rfl
  | succ n ih => simp [keepMask, ih]

theorem keepMask_eq_draws (g : Rng) (fraction : Int) (n : Nat) (s : g.State) :
    keepMask g fraction s n =
      (draws g s n).map (fun d => decide (((d % 100 : Nat) : Int) < fraction)) := by
  induction n generalizing s with
  | zero => rfl
  | succ n ih => simp [keepMask, draws, ih]

theorem keepMask_hundred (g : Rng) (fraction : Int) (hp : 100 ≤ fraction) (n : Nat)
    (s : g.State) : ∀ b ∈ keepMask g fraction s n, b = true := by
  induction n generalizing s with
  | zero => simp [keepMask]
  | succ n ih =>
    intro b hb
    simp only [keepMask, List.mem_cons] at hb
    rcases hb with hb | hb
    · rw [hb]
      have : (g.rand s).1 % 100 < 100 := Nat.mod_lt _ (by decide)
      simp
      omega
    · exact ih _ b hb

/-! ## The single-end loop on records that fit -/

theorem encodeLines_length_ge (r : List (List Byte)) : r.length ≤ (encodeLines r).length := by
  induction r with
  | nil => simp [encodeLines]
  | cons l ls ih =>
    simp [encodeLines]
    omega

theorem encode_length_ge (recs : List (List (List Byte))) (hf : ∀ r ∈ recs, RecordFits r) :
    recs.length ≤ (encode recs).length := by
  induction recs with
  | nil => simp [encode]
  | cons r rs ih =>
    have h1 := encodeLines_length_ge r
    have h2 := (hf r (by simp)).1
    have h3 := ih (fun x hx => hf x (by simp [hx]))
    simp [encode]
    omega

theorem single_loop_succ (g : Rng) (P : Int) (fuel : Nat) (st : SingleState g) :
    single_loop g P (fuel + 1) st =
      if (read_fastq_record st.in_file st.lines).1 then
        if (((g.rand st.rng).1 % 100 : Nat) : Int) < P then
          single_loop g P fuel
            { in_file := (read_fastq_record st.in_file st.lines).2.2
              out_file := write_fastq_record st.out_file (read_fastq_record st.in_file st.lines).2.1
              lines := (read_fastq_record st.in_file st.lines).2.1
              total_reads := st.total_reads + 1
              kept_reads := st.kept_reads + 1
              rng := (g.rand st.rng).2 }
        else
          single_loop g P fuel
            { in_file := (read_fastq_record st.in_file st.lines).2.2
              out_file := st.out_file
              lines := (read_fastq_record st.in_file st.lines).2.1
              total_reads := st.total_reads + 1
              kept_reads := st.kept_reads
              rng := (g.rand st.rng).2 }
      else
        some { st with
          in_file := (read_fastq_record st.in_file st.lines).2.2
          lines := (read_fastq_record st.in_file st.lines).2.1 } := rfl

/-- The loop consumes a run of records that fit, one iteration each. -/
theorem single_loop_records (g : Rng) (P : Int) (recs : List (List (List Byte)))
    (hf : ∀ r ∈ recs, RecordFits r) :
    ∀ (st : SingleState g) (tail : List Byte), st.in_file = encode recs ++ tail →
      st.lines.length = 4 →
      ∃ st' : SingleState g,
        (∀ fuel, single_loop g P (recs.length + fuel) st = single_loop g P fuel st') ∧
        st'.in_file = tail ∧ st'.lines.length = 4 ∧
        st'.total_reads = st.total_reads + recs.length ∧
        st'.kept_reads = st.kept_reads + (keepMask g P st.rng recs.length).count true ∧
        st'.rng = rngAfter g st.rng recs.length ∧
        st'.out_file = writeAll st.out_file
          (select (keepMask g P st.rng recs.length) (recs.map (List.map stored))) := by
  induction recs with
  | nil =>
    intro st tail hin hl
    refine ⟨st, ?_, ?_, hl, ?_, ?_, ?_, ?_⟩
    · intro fuel
      simp
    · simpa [encode] using hin
    · simp
    · simp [keepMask]
    · rfl
    · simp [keepMask, select, writeAll]
  | cons r rs ih =>
    intro st tail hin hl
    have hr : RecordFits r := hf r (by simp)
    have hrs : ∀ x ∈ rs, RecordFits x := fun x hx => hf x (by simp [hx])
    have hin2 : st.in_file = encodeLines r ++ (encode rs ++ tail) := by
      rw [hin]
      simp [encode]
    have hread := read_record_fits r (encode rs ++ tail) st.lines hr hl
    rw [← hin2] at hread
    have hl1 : (r.map stored).length = 4 := by simpa using hr.1
    by_cases hk : (((g.rand st.rng).1 % 100 : Nat) : Int) < P
    · obtain ⟨st', h1, h2, h3, h4, h5, h6, h7⟩ := ih hrs
        { in_file := encode rs ++ tail
          out_file := write_fastq_record st.out_file (r.map stored)
          lines := r.map stored
          total_reads := st.total_reads + 1
          kept_reads := st.kept_reads + 1
          rng := (g.rand st.rng).2 } tail rfl hl1
      refine ⟨st', ?_, h2, h3, ?_, ?_, ?_, ?_⟩
      · intro fuel
        rw [← h1 fuel, show (r :: rs).length + fuel = (rs.length + fuel) + 1 by
          simp only [List.length_cons]; omega]
        rw [single_loop_succ, hread]
        simp only [hk, if_true, if_false]
      · rw [h4]
        simp only [List.length_cons]
        omega
      · rw [h5]
        simp only [List.length_cons, keepMask, hk, decide_True, List.count_cons_self]
        omega
      · rw [h6]
        rfl
      · rw [h7]
        simp only [List.length_cons, keepMask, hk, decide_True, select, List.map_cons, writeAll,
          List.foldl_cons]
    · obtain ⟨st', h1, h2, h3, h4, h5, h6, h7⟩ := ih hrs
        { in_file := encode rs ++ tail
          out_file := st.out_file
          lines := r.map stored
          total_reads := st.total_reads + 1
          kept_reads := st.kept_reads
          rng := (g.rand st.rng).2 } tail rfl hl1
      refine ⟨st', ?_, h2, h3, ?_, ?_, ?_, ?_⟩
      · intro fuel
        rw [← h1 fuel, show (r :: rs).length + fuel = (rs.length + fuel) + 1 by
          simp only [List.length_cons]; omega]
        rw [single_loop_succ, hread]
        simp only [hk, if_true, if_false]
      · rw [h4]
        simp only [List.length_cons]
        omega
      · rw [h5]
        simp only [List.length_cons, keepMask, hk, decide_False]
        simp
      · rw [h6]
        rfl
      · rw [h7]
        simp only [List.length_cons, keepMask, hk, decide_False, select, List.map_cons]

/-- A run of the single-end driver on records that fit, followed by a tail on
which the reader reports the end of the stream. -/
theorem single_run_records (g : Rng) (out : FILE) (P seed : Int) (verbose : Bool)
    (recs : List (List (List Byte))) (tail : List Byte)
    (hf : ∀ r ∈ recs, RecordFits r)
    (ht : ∀ lines : Lines, lines.length = 4 → (read_fastq_record tail lines).1 = false) :
    ∃ run : SingleRun g,
      subsample_single_end_fastq g
        { in_file := encode recs ++ tail, out_file := out, subsample_fraction := P,
          seed := seed, verbose := verbose } = some run ∧
      run.final.total_reads = recs.length ∧
      run.final.kept_reads = (keepMask g P (g.srand seed) recs.length).count true ∧
      run.final.rng = rngAfter g (g.srand seed) recs.length ∧
      run.final.out_file = writeAll out
        (select (keepMask g P (g.srand seed) recs.length) (recs.map (List.map stored))) ∧
      run.stdout = (if verbose then [Msg.banner P seed] else []) ++
        (if verbose then
          [Msg.total recs.length,
            Msg.kept ((keepMask g P (g.srand seed) recs.length).count true)
              ((keepMask g P (g.srand seed) recs.length).count true) recs.length]
         else []) := by
  obtain ⟨st', h1, h2, h3, h4, h5, h6, h7⟩ := single_loop_records g P recs hf
    { in_file := encode recs ++ tail, out_file := out, lines := Lines.init,
      total_reads := 0, kept_reads := 0, rng := g.srand seed } tail rfl rfl
  have hlen := encode_length_ge recs hf
  obtain ⟨k, hk⟩ : ∃ k, (encode recs ++ tail).length + 1 = recs.length + (k + 1) :=
    ⟨(encode recs ++ tail).length - recs.length, by simp; omega⟩
  have hend : single_loop g P (k + 1) st' = some { st' with
      in_file := (read_fastq_record st'.in_file st'.lines).2.2
      lines := (read_fastq_record st'.in_file st'.lines).2.1 } := by
    rw [single_loop_succ, h2]
    simp only [ht st'.lines h3]
    rfl
  have hrun : subsample_single_end_fastq g
      { in_file := encode recs ++ tail, out_file := out, subsample_fraction := P,
        seed := seed, verbose := verbose } = some
      { final := { st' with
          in_file := (read_fastq_record st'.in_file st'.lines).2.2
          lines := (read_fastq_record st'.in_file st'.lines).2.1 }
        stdout := (if verbose then [Msg.banner P seed] else []) ++
          (if verbose then
            [Msg.total st'.total_reads, Msg.kept st'.kept_reads st'.kept_reads st'.total_reads]
           else []) } := by
    simp only [subsample_single_end_fastq]
    rw [hk, h1 (k + 1), hend]
    rfl
  refine ⟨_, hrun, ?_, ?_, ?_, ?_, ?_⟩
  · simpa using h4
  · simpa using h5
  · simpa using h6
  · simpa using h7
  · simp only [h4, h5]
    simp

/-! ## The paired loop on records that fit -/

theorem paired_loop_both (g : Rng) (P : Int) (fuel : Nat) (st : PairedState g)
    (l1 l2 : Lines) (f1 f2 : List Byte)
    (h1 : read_fastq_record st.r1_in st.r1_lines = (true, l1, f1))
    (h2 : read_fastq_record st.r2_in st.r2_lines = (true, l2, f2)) :
    paired_loop g P (fuel + 1) st =
      if (((g.rand st.rng).1 % 100 : Nat) : Int) < P then
        paired_loop g P fuel
          { r1_in := f1, r2_in := f2
            r1_out := write_fastq_record st.r1_out l1
            r2_out := write_fastq_record st.r2_out l2
            r1_lines := l1, r2_lines := l2
            total_pairs := st.total_pairs + 1
            kept_pairs := st.kept_pairs + 1
            r1_count := st.r1_count + 1
            r2_count := st.r2_count + 1
            rng := (g.rand st.rng).2 }
      else
        paired_loop g P fuel
          { r1_in := f1, r2_in := f2
            r1_out := st.r1_out
            r2_out := st.r2_out
            r1_lines := l1, r2_lines := l2
            total_pairs := st.total_pairs + 1
            kept_pairs := st.kept_pairs
            r1_count := st.r1_count + 1
            r2_count := st.r2_count + 1
            rng := (g.rand st.rng).2 } := by
  conv_lhs => unfold paired_loop
  simp only [h1, h2]
  simp

theorem paired_loop_none (g : Rng) (P : Int) (fuel : Nat) (st : PairedState g)
    (h1 : (read_fastq_record st.r1_in st.r1_lines).1 = false)
    (h2 : (read_fastq_record st.r2_in st.r2_lines).1 = false) :
    paired_loop g P (fuel + 1) st =
      some (PairedEnd.finished { st with
        r1_in := (read_fastq_record st.r1_in st.r1_lines).2.2
        r2_in := (read_fastq_record st.r2_in st.r2_lines).2.2
        r1_lines := (read_fastq_record st.r1_in st.r1_lines).2.1
        r2_lines := (read_fastq_record st.r2_in st.r2_lines).2.1 }) := by
  conv_lhs => unfold paired_loop
  simp only [h1, h2]
  simp

theorem paired_loop_one (g : Rng) (P : Int) (fuel : Nat) (st : PairedState g)
    (h : (read_fastq_record st.r1_in st.r1_lines).1 ≠
      (read_fastq_record st.r2_in st.r2_lines).1) :
    paired_loop g P (fuel + 1) st =
      some (PairedEnd.unpaired
        (st.r1_count + (if (read_fastq_record st.r1_in st.r1_lines).1 then 1 else 0))
        (st.r2_count + (if (read_fastq_record st.r2_in st.r2_lines).1 then 1 else 0))
        { st with
          r1_in := (read_fastq_record st.r1_in st.r1_lines).2.2
          r2_in := (read_fastq_record st.r2_in st.r2_lines).2.2
          r1_lines := (read_fastq_record st.r1_in st.r1_lines).2.1
          r2_lines := (read_fastq_record st.r2_in st.r2_lines).2.1 }) := by
  conv_lhs => unfold paired_loop
  cases h1 : (read_fastq_record st.r1_in st.r1_lines).1 <;>
    cases h2 : (read_fastq_record st.r2_in st.r2_lines).1 <;>
    simp [h1, h2] at h ⊢

/-- The paired loop consumes two runs of equally many records that fit, one
iteration for each pair. -/
theorem paired_loop_records (g : Rng) (P : Int) (recs1 : List (List (List Byte))) :
    ∀ (recs2 : List (List (List Byte))), recs1.length = recs2.length →
      (∀ r ∈ recs1, RecordFits r) → (∀ r ∈ recs2, RecordFits r) →
      ∀ (st : PairedState g) (t1 t2 : List Byte),
        st.r1_in = encode recs1 ++ t1 → st.r2_in = encode recs2 ++ t2 →
        st.r1_lines.length = 4 → st.r2_lines.length = 4 →
        ∃ st' : PairedState g,
          (∀ fuel, paired_loop g P (recs1.length + fuel) st = paired_loop g P fuel st') ∧
          st'.r1_in = t1 ∧ st'.r2_in = t2 ∧
          st'.r1_lines.length = 4 ∧ st'.r2_lines.length = 4 ∧
          st'.total_pairs = st.total_pairs + recs1.length ∧
          st'.kept_pairs = st.kept_pairs + (keepMask g P st.rng recs1.length).count true ∧
          st'.r1_count = st.r1_count + recs1.length ∧
          st'.r2_count = st.r2_count + recs1.length ∧
          st'.rng = rngAfter g st.rng recs1.length ∧
          st'.r1_out = writeAll st.r1_out
            (select (keepMask g P st.rng recs1.length) (recs1.map (List.map stored))) ∧
          st'.r2_out = writeAll st.r2_out
            (select (keepMask g P st.rng recs1.length) (recs2.map (List.map stored))) := by
  induction recs1 with
  | nil =>
    intro recs2 hlen _ _ st t1 t2 hin1 hin2 hl1 hl2
    have e2 : recs2 = [] := List.length_eq_zero.mp (by simpa using hlen.symm)
    subst e2
    refine ⟨st, ?_, ?_, ?_, hl1, hl2, ?_, ?_, ?_, ?_, ?_, ?_, ?_⟩
    · intro fuel
      simp
    · simpa [encode] using hin1
    · simpa [encode] using hin2
    · simp
    · simp [keepMask]
    · simp
    · simp
    · rfl
    · simp [keepMask, select, writeAll]
    · simp [keepMask, select, writeAll]
  | cons r rs ih =>
    intro recs2 hlen hf1 hf2 st t1 t2 hin1 hin2 hl1 hl2
    match recs2, hlen, hf2, hin2 with
    | q :: qs, hlen, hf2, hin2 =>
      have hr : RecordFits r := hf1 r (by simp)
      have hq : RecordFits q := hf2 q (by simp)
      have hrs : ∀ x ∈ rs, RecordFits x := fun x hx => hf1 x (by simp [hx])
      have hqs : ∀ x ∈ qs, RecordFits x := fun x hx => hf2 x (by simp [hx])
      have hlen2 : rs.length = qs.length := by simpa using hlen
      have hread1 := read_record_fits r (encode rs ++ t1) st.r1_lines hr hl1
      rw [show encodeLines r ++ (encode rs ++ t1) = st.r1_in by rw [hin1]; simp [encode]]
        at hread1
      have hread2 := read_record_fits q (encode qs ++ t2) st.r2_lines hq hl2
      rw [show encodeLines q ++ (encode qs ++ t2) = st.r2_in by rw [hin2]; simp [encode]]
        at hread2
      have hm1 : (r.map stored).length = 4 := by simpa using hr.1
      have hm2 : (q.map stored).length = 4 := by simpa using hq.1
      have hfuel : ∀ fuel, (r :: rs).length + fuel = (rs.length + fuel) + 1 := by
        intro fuel
        simp only [List.length_cons]
        omega
      by_cases hk : (((g.rand st.rng).1 % 100 : Nat) : Int) < P
      · obtain ⟨st', a1, a2, a3, a4, a5, a6, a7, a8, a9, a10, a11, a12⟩ := ih qs hlen2 hrs hqs
          { r1_in := encode rs ++ t1, r2_in := encode qs ++ t2
            r1_out := write_fastq_record st.r1_out (r.map stored)
            r2_out := write_fastq_record st.r2_out (q.map stored)
            r1_lines := r.map stored, r2_lines := q.map stored
            total_pairs := st.total_pairs + 1
            kept_pairs := st.kept_pairs + 1
            r1_count := st.r1_count + 1
            r2_count := st.r2_count + 1
            rng := (g.rand st.rng).2 } t1 t2 rfl rfl hm1 hm2
        refine ⟨st', ?_, a2, a3, a4, a5, ?_, ?_, ?_, ?_, ?_, ?_, ?_⟩
        · intro fuel
          rw [← a1 fuel, hfuel, paired_loop_both g P _ st _ _ _ _ hread1 hread2]
          simp only [hk, if_true]
        · rw [a6]
          simp only [List.length_cons]
          omega
        · rw [a7]
          simp only [List.length_cons, keepMask, hk, decide_True, List.count_cons_self]
          omega
        · rw [a8]
          simp only [List.length_cons]
          omega
        · rw [a9]
          simp only [List.length_cons]
          omega
        · rw [a10]
          rfl
        · rw [a11]
          simp only [List.length_cons, keepMask, hk, decide_True, select, List.map_cons,
            writeAll, List.foldl_cons]
        · rw [a12]
          simp only [List.length_cons, keepMask, hk, decide_True, select, List.map_cons,
            writeAll, List.foldl_cons]
      · obtain ⟨st', a1, a2, a3, a4, a5, a6, a7, a8, a9, a10, a11, a12⟩ := ih qs hlen2 hrs hqs
          { r1_in := encode rs ++ t1, r2_in := encode qs ++ t2
            r1_out := st.r1_out
            r2_out := st.r2_out
            r1_lines := r.map stored, r2_lines := q.map stored
            total_pairs := st.total_pairs + 1
            kept_pairs := st.kept_pairs
            r1_count := st.r1_count + 1
            r2_count := st.r2_count + 1
            rng := (g.rand st.rng).2 } t1 t2 rfl rfl hm1 hm2
        refine ⟨st', ?_, a2, a3, a4, a5, ?_, ?_, ?_, ?_, ?_, ?_, ?_⟩
        · intro fuel
          rw [← a1 fuel, hfuel, paired_loop_both g P _ st _ _ _ _ hread1 hread2]
          simp only [hk, if_false]
        · rw [a6]
          simp only [List.length_cons]
          omega
        · rw [a7]
          simp only [List.length_cons, keepMask, hk, decide_False]
          simp
        · rw [a8]
          simp only [List.length_cons]
          omega
        · rw [a9]
          simp only [List.length_cons]
          omega
        · rw [a10]
          rfl
        · rw [a11]
          simp only [List.length_cons, keepMask, hk, decide_False, select, List.map_cons]
        · rw [a12]
          simp only [List.length_cons, keepMask, hk, decide_False, select, List.map_cons]

/-- A run of the paired driver on two runs of equally many records that fit,
each followed by a tail on which the reader's answer is known, the two tails
not both readable. -/
theorem paired_run_records (g : Rng) (out1 out2 : FILE) (P seed : Int) (verbose : Bool)
    (c1 c2 : List (List (List Byte))) (t1 t2 : List Byte) (b1 b2 : Bool)
    (hlen : c1.length = c2.length)
    (hf1 : ∀ r ∈ c1, RecordFits r) (hf2 : ∀ r ∈ c2, RecordFits r)
    (ht1 : ∀ lines : Lines, lines.length = 4 → (read_fastq_record t1 lines).1 = b1)
    (ht2 : ∀ lines : Lines, lines.length = 4 → (read_fastq_record t2 lines).1 = b2)
    (hb : ¬ (b1 = true ∧ b2 = true)) :
    ∃ run : PairedRun g,
      subsample_paired_fastq g
        { r1_in := encode c1 ++ t1, r2_in := encode c2 ++ t2, r1_out := out1, r2_out := out2,
          subsample_fraction := P, seed := seed, verbose := verbose } = some run ∧
      run.final.total_pairs = c1.length ∧
      run.final.kept_pairs = (keepMask g P (g.srand seed) c1.length).count true ∧
      run.final.rng = rngAfter g (g.srand seed) c1.length ∧
      run.final.r1_out = writeAll out1
        (select (keepMask g P (g.srand seed) c1.length) (c1.map (List.map stored))) ∧
      run.final.r2_out = writeAll out2
        (select (keepMask g P (g.srand seed) c1.length) (c2.map (List.map stored))) ∧
      run.failure = (if b1 = false ∧ b2 = false then none
        else some (c1.length + (if b1 then 1 else 0), c1.length + (if b2 then 1 else 0))) ∧
      run.stdout = (if verbose then [Msg.banner P seed] else []) ++
        (if b1 = false ∧ b2 = false then
          (if verbose then
            [Msg.total c1.length,
              Msg.kept ((keepMask g P (g.srand seed) c1.length).count true)
                ((keepMask g P (g.srand seed) c1.length).count true) c1.length]
           else [])
         else []) := by
  obtain ⟨st', a1, a2, a3, a4, a5, a6, a7, a8, a9, a10, a11, a12⟩ :=
    paired_loop_records g P c1 c2 hlen hf1 hf2
      { r1_in := encode c1 ++ t1, r2_in := encode c2 ++ t2, r1_out := out1, r2_out := out2,
        r1_lines := Lines.init, r2_lines := Lines.init, total_pairs := 0, kept_pairs := 0,
        r1_count := 0, r2_count := 0, rng := g.srand seed } t1 t2 rfl rfl rfl rfl
  have hlen1 := encode_length_ge c1 hf1
  obtain ⟨k, hk⟩ : ∃ k, (encode c1 ++ t1).length + 1 = c1.length + (k + 1) :=
    ⟨(encode c1 ++ t1).length - c1.length, by simp; omega⟩
  have hr1 : (read_fastq_record st'.r1_in st'.r1_lines).1 = b1 := by
    rw [a2]
    exact ht1 _ a4
  have hr2 : (read_fastq_record st'.r2_in st'.r2_lines).1 = b2 := by
    rw [a3]
    exact ht2 _ a5
  simp only [Nat.zero_add] at a6 a7 a8 a9
  by_cases hfin : b1 = false ∧ b2 = false
  · have hend := paired_loop_none g P k st' (hr1.trans hfin.1) (hr2.trans hfin.2)
    have hrun : subsample_paired_fastq g
        { r1_in := encode c1 ++ t1, r2_in := encode c2 ++ t2, r1_out := out1, r2_out := out2,
          subsample_fraction := P, seed := seed, verbose := verbose } = some
        { final := { st' with
            r1_in := (read_fastq_record st'.r1_in st'.r1_lines).2.2
            r2_in := (read_fastq_record st'.r2_in st'.r2_lines).2.2
            r1_lines := (read_fastq_record st'.r1_in st'.r1_lines).2.1
            r2_lines := (read_fastq_record st'.r2_in st'.r2_lines).2.1 }
          stdout := (if verbose then [Msg.banner P seed] else []) ++
            (if verbose then
              [Msg.total st'.total_pairs, Msg.kept st'.kept_pairs st'.kept_pairs st'.total_pairs]
             else [])
          failure := none } := by
      simp only [subsample_paired_fastq]
      rw [hk, a1 (k + 1), hend]
      rfl
    refine ⟨_, hrun, ?_, ?_, ?_, ?_, ?_, ?_, ?_⟩
    · exact a6
    · exact a7
    · exact a10
    · exact a11
    · exact a12
    · simp [hfin]
    · simp only [a6, a7, hfin, and_self, if_true]
  · have hne : (read_fastq_record st'.r1_in st'.r1_lines).1 ≠
        (read_fastq_record st'.r2_in st'.r2_lines).1 := by
      rw [hr1, hr2]
      cases b1 <;> cases b2 <;> simp at hb hfin ⊢
    have hend := paired_loop_one g P k st' hne
    have hrun : subsample_paired_fastq g
        { r1_in := encode c1 ++ t1, r2_in := encode c2 ++ t2, r1_out := out1, r2_out := out2,
          subsample_fraction := P, seed := seed, verbose := verbose } = some
        { final := { st' with
            r1_in := (read_fastq_record st'.r1_in st'.r1_lines).2.2
            r2_in := (read_fastq_record st'.r2_in st'.r2_lines).2.2
            r1_lines := (read_fastq_record st'.r1_in st'.r1_lines).2.1
            r2_lines := (read_fastq_record st'.r2_in st'.r2_lines).2.1 }
          stdout := if verbose then [Msg.banner P seed] else []
          failure := some
            (st'.r1_count + (if (read_fastq_record st'.r1_in st'.r1_lines).1 then 1 else 0),
              st'.r2_count + (if (read_fastq_record st'.r2_in st'.r2_lines).1 then 1 else 0)) } := by
      simp only [subsample_paired_fastq]
      rw [hk, a1 (k + 1), hend]
      rfl
    refine ⟨_, hrun, ?_, ?_, ?_, ?_, ?_, ?_, ?_⟩
    · exact a6
    · exact a7
    · exact a10
    · exact a11
    · exact a12
    · simp only [hfin, if_false, hr1, hr2, a8, a9]
    · simp only [hfin, if_false, List.append_nil]

theorem read_nil_fails (lines : Lines) : (read_fastq_record [] lines).1 = false := by
  simp [read_fastq_record, read_from_nil]

theorem select_zip {α β : Type} (m : List Bool) (xs : List α) (ys : List β) :
    select m (xs.zip ys) = (select m xs).zip (select m ys) := by
  induction m generalizing xs ys with
  | nil => cases xs <;> cases ys <;> simp [select]
  | cons b m ih =>
    cases xs with
    | nil => cases ys <;> cases b <;> simp [select]
    | cons x xs =>
      cases ys with
      | nil => cases b <;> simp [select]
      | cons y ys =>
        rw [List.zip_cons_cons]
        cases b
        · simp only [select]
          exact ih xs ys
        · simp only [select, List.zip_cons_cons, ih]

theorem select_mem {α : Type} (m : List Bool) (xs : List α) (x : α) (h : x ∈ select m xs) :
    x ∈ xs :=
  (select_sublist m xs).subset h

theorem count_map_decide (p : Nat → Bool) (l : List Nat) :
    (l.map p).count true = l.countP p := by
  induction l with
  | nil => rfl
  | cons d l ih =>
    cases h : p d <;> simp [List.countP_cons, h, ih]

theorem draws_length (g : Rng) (n : Nat) (s : g.State) : (draws g s n).length = n := by
  induction n generalizing s with
  | zero => rfl
  | succ n ih => simp [draws, ih]

/-! ## Claims -/

/-- C1. Paired driver, pairing fidelity: for every generator, seed and
percentage, every two sinks that accept their writes and every two input
streams holding equally many records of four lines (each line at most 1022
bytes, none NUL, followed by a newline), the run returns without the unpaired
error, so the program exits with success; both outputs are the input records
selected by one and the same mask over the positions, so they hold equally
many records and the `k`-th record of output 1 and of output 2 come from the
same position of the two inputs. -/
theorem paired_pairing_fidelity (g : Rng) (out1 out2 : FILE) (P seed : Int) (verbose : Bool)
    (recs1 recs2 : List (List (List Byte)))
    (hlen : recs1.length = recs2.length)
    (h1 : ∀ r ∈ recs1, RecordClean r) (h2 : ∀ r ∈ recs2, RecordClean r)
    (ha1 : ∀ n, out1.accept n = true) (ha2 : ∀ n, out2.accept n = true) :
    ∃ run : PairedRun g,
      subsample_paired_fastq g
        { r1_in := encode recs1, r2_in := encode recs2, r1_out := out1, r2_out := out2,
          subsample_fraction := P, seed := seed, verbose := verbose } = some run ∧
      run.failure = none ∧ run.status = 0 ∧
      run.final.r1_out.data =
        out1.data ++ encode (select (keepMask g P (g.srand seed) recs1.length) recs1) ∧
      run.final.r2_out.data =
        out2.data ++ encode (select (keepMask g P (g.srand seed) recs1.length) recs2) ∧
      (select (keepMask g P (g.srand seed) recs1.length) recs1).length =
        (select (keepMask g P (g.srand seed) recs1.length) recs2).length ∧
      (select (keepMask g P (g.srand seed) recs1.length) recs1).zip
          (select (keepMask g P (g.srand seed) recs1.length) recs2) =
        select (keepMask g P (g.srand seed) recs1.length) (recs1.zip recs2) := by
  obtain ⟨run, hrun, -, -, -, ho1, ho2, hfail, -⟩ :=
    paired_run_records g out1 out2 P seed verbose recs1 recs2 [] [] false false hlen
      (fun r hr => ⟨(h1 r hr).1, fun l hl => ((h1 r hr).2 l hl).1⟩)
      (fun r hr => ⟨(h2 r hr).1, fun l hl => ((h2 r hr).2 l hl).1⟩)
      (fun lines _ => read_nil_fails lines) (fun lines _ => read_nil_fails lines) (by simp)
  simp only [List.append_nil] at hrun
  have hnone : run.failure = none := by simpa using hfail
  refine ⟨run, hrun, hnone, by simp [PairedRun.status, hnone], ?_, ?_, ?_, ?_⟩
  · rw [ho1, select_map, writeAll_data _ _ ha1 (fun r hr => h1 r (select_mem _ _ _ hr))]
  · rw [ho2, select_map, writeAll_data _ _ ha2 (fun r hr => h2 r (select_mem _ _ _ hr))]
  · exact select_length _ _ _ hlen
  · exact (select_zip _ _ _).symm

/-- Witness for C1: two streams of three records each at 50 percent. -/
theorem paired_pairing_fidelity_witness :
    ∃ run : PairedRun sampleRng,
      subsample_paired_fastq sampleRng
        { r1_in := encode [recA, recB, recC], r2_in := encode [recX, recY, recZ],
          r1_out := okSink, r2_out := okSink,
          subsample_fraction := 50, seed := 1, verbose := true } = some run ∧
      run.failure = none ∧ run.status = 0 ∧
      run.final.r1_out.data = okSink.data ++
        encode (select (keepMask sampleRng 50 (sampleRng.srand 1) [recA, recB, recC].length)
          [recA, recB, recC]) ∧
      run.final.r2_out.data = okSink.data ++
        encode (select (keepMask sampleRng 50 (sampleRng.srand 1) [recA, recB, recC].length)
          [recX, recY, recZ]) ∧
      (select (keepMask sampleRng 50 (sampleRng.srand 1) [recA, recB, recC].length)
          [recA, recB, recC]).length =
        (select (keepMask sampleRng 50 (sampleRng.srand 1) [recA, recB, recC].length)
          [recX, recY, recZ]).length ∧
      (select (keepMask sampleRng 50 (sampleRng.srand 1) [recA, recB, recC].length)
            [recA, recB, recC]).zip
          (select (keepMask sampleRng 50 (sampleRng.srand 1) [recA, recB, recC].length)
            [recX, recY, recZ]) =
        select (keepMask sampleRng 50 (sampleRng.srand 1) [recA, recB, recC].length)
          ([recA, recB, recC].zip [recX, recY, recZ]) :=
  paired_pairing_fidelity sampleRng okSink okSink 50 1 true [recA, recB, recC]
    [recX, recY, recZ] (by decide) (by decide) (by decide) (fun _ => rfl) (fun _ => rfl)

/-- C2. Paired driver, unpaired detection: for every two input streams of `N`
and `M` records whose lines fit the line buffer, the run ends; it ends in the
unpaired-reads error, with a nonzero exit status, exactly when `N ≠ M`; and
when `N ≠ M` the error comes after exactly `min N M` pairs were processed (that
many decisions drawn), in the next iteration, with the counts `min N M` for the
shorter and `min N M + 1` for the longer stream, and without the end-of-run
summary. -/
theorem paired_unpaired_detection (g : Rng) (out1 out2 : FILE) (P seed : Int) (verbose : Bool)
    (recs1 recs2 : List (List (List Byte)))
    (h1 : ∀ r ∈ recs1, RecordFits r) (h2 : ∀ r ∈ recs2, RecordFits r) :
    ∃ run : PairedRun g,
      subsample_paired_fastq g
        { r1_in := encode recs1, r2_in := encode recs2, r1_out := out1, r2_out := out2,
          subsample_fraction := P, seed := seed, verbose := verbose } = some run ∧
      (run.failure ≠ none ↔ recs1.length ≠ recs2.length) ∧
      (run.status ≠ 0 ↔ recs1.length ≠ recs2.length) ∧
      (recs1.length ≠ recs2.length →
        run.final.total_pairs = min recs1.length recs2.length ∧
        run.final.rng = rngAfter g (g.srand seed) (min recs1.length recs2.length) ∧
        run.failure = some
          (min recs1.length recs2.length + (if recs2.length < recs1.length then 1 else 0),
            min recs1.length recs2.length + (if recs1.length < recs2.length then 1 else 0)) ∧
        run.stdout = if verbose then [Msg.banner P seed] else []) := by
  rcases Nat.lt_trichotomy recs1.length recs2.length with hlt | heq | hgt
  · -- stream 2 is longer
    have hsplit : recs2 = recs2.take recs1.length ++ recs2.drop recs1.length :=
      (List.take_append_drop _ _).symm
    have hlenT : recs1.length = (recs2.take recs1.length).length := by
      rw [List.length_take]
      omega
    obtain ⟨q, qs, hq⟩ : ∃ q qs, recs2.drop recs1.length = q :: qs := by
      cases hd : recs2.drop recs1.length with
      | nil =>
        have := congrArg List.length hd
        simp at this
        omega
      | cons q qs => exact ⟨q, qs, rfl⟩
    have hqf : RecordFits q := h2 q (by
      have : q ∈ recs2.drop recs1.length := by simp [hq]
      exact List.mem_of_mem_drop this)
    obtain ⟨run, hrun, htot, -, hrng, -, -, hfail, hout⟩ :=
      paired_run_records g out1 out2 P seed verbose recs1 (recs2.take recs1.length) []
        (encode (recs2.drop recs1.length)) false true hlenT h1
        (fun r hr => h2 r (List.mem_of_mem_take hr))
        (fun lines _ => read_nil_fails lines)
        (fun lines hl => by
          rw [hq]
          show (read_fastq_record (encodeLines q ++ encode qs) lines).1 = true
          rw [read_record_fits q _ lines hqf hl]) (by simp)
    rw [← encode_append, ← hsplit, List.append_nil] at hrun
    have hmin : min recs1.length recs2.length = recs1.length := by omega
    refine ⟨run, hrun, ?_, ?_, ?_⟩
    · rw [hfail]
      simp
      omega
    · simp only [PairedRun.status, hfail]
      simp
      omega
    · intro _
      refine ⟨by rw [htot, hmin], by rw [hrng, hmin], ?_, ?_⟩
      · rw [hfail, hmin]
        have : ¬ recs2.length < recs1.length := by omega
        simp [hlt, this]
      · rw [hout]
        simp
  · -- equal lengths
    obtain ⟨run, hrun, -, -, -, -, -, hfail, -⟩ :=
      paired_run_records g out1 out2 P seed verbose recs1 recs2 [] [] false false heq h1 h2
        (fun lines _ => read_nil_fails lines) (fun lines _ => read_nil_fails lines) (by simp)
    simp only [List.append_nil] at hrun
    refine ⟨run, hrun, ?_, ?_, fun hne => absurd heq hne⟩
    · rw [hfail]
      simp [heq]
    · simp only [PairedRun.status, hfail]
      simp [heq]
  · -- stream 1 is longer
    have hsplit : recs1 = recs1.take recs2.length ++ recs1.drop recs2.length :=
      (List.take_append_drop _ _).symm
    have hlenT : (recs1.take recs2.length).length = recs2.length := by
      rw [List.length_take]
      omega
    obtain ⟨q, qs, hq⟩ : ∃ q qs, recs1.drop recs2.length = q :: qs := by
      cases hd : recs1.drop recs2.length with
      | nil =>
        have := congrArg List.length hd
        simp at this
        omega
      | cons q qs => exact ⟨q, qs, rfl⟩
    have hqf : RecordFits q := h1 q (by
      have : q ∈ recs1.drop recs2.length := by simp [hq]
      exact List.mem_of_mem_drop this)
    obtain ⟨run, hrun, htot, -, hrng, -, -, hfail, hout⟩ :=
      paired_run_records g out1 out2 P seed verbose (recs1.take recs2.length) recs2
        (encode (recs1.drop recs2.length)) [] true false hlenT
        (fun r hr => h1 r (List.mem_of_mem_take hr)) h2
        (fun lines hl => by
          rw [hq]
          show (read_fastq_record (encodeLines q ++ encode qs) lines).1 = true
          rw [read_record_fits q _ lines hqf hl])
        (fun lines _ => read_nil_fails lines) (by simp)
    rw [← encode_append, ← hsplit, List.append_nil] at hrun
    have hmin : min recs1.length recs2.length = recs2.length := by omega
    rw [hlenT] at htot hrng hfail hout
    refine ⟨run, hrun, ?_, ?_, ?_⟩
    · rw [hfail]
      simp
      omega
    · simp only [PairedRun.status, hfail]
      simp
      omega
    · intro _
      refine ⟨by rw [htot, hmin], by rw [hrng, hmin], ?_, ?_⟩
      · rw [hfail, hmin]
        have : ¬ recs1.length < recs2.length := by omega
        simp [hgt, this]
      · rw [hout]
        simp

/-- Witness for C2: three records against two. -/
theorem paired_unpaired_detection_witness :
    ∃ run : PairedRun sampleRng,
      subsample_paired_fastq sampleRng
        { r1_in := encode [recA, recB, recC], r2_in := encode [recX, recY],
          r1_out := okSink, r2_out := okSink,
          subsample_fraction := 50, seed := 1, verbose := true } = some run ∧
      (run.failure ≠ none ↔ [recA, recB, recC].length ≠ [recX, recY].length) ∧
      (run.status ≠ 0 ↔ [recA, recB, recC].length ≠ [recX, recY].length) ∧
      ([recA, recB, recC].length ≠ [recX, recY].length →
        run.final.total_pairs = min [recA, recB, recC].length [recX, recY].length ∧
        run.final.rng = rngAfter sampleRng (sampleRng.srand 1)
          (min [recA, recB, recC].length [recX, recY].length) ∧
        run.failure = some
          (min [recA, recB, recC].length [recX, recY].length +
              (if [recX, recY].length < [recA, recB, recC].length then 1 else 0),
            min [recA, recB, recC].length [recX, recY].length +
              (if [recA, recB, recC].length < [recX, recY].length then 1 else 0)) ∧
        run.stdout = if true then [Msg.banner 50 1] else []) :=
  paired_unpaired_detection sampleRng okSink okSink 50 1 true [recA, recB, recC] [recX, recY]
    (by decide) (by decide)

theorem clean_fits (recs : List (List (List Byte))) (h : ∀ r ∈ recs, RecordClean r) :
    ∀ r ∈ recs, RecordFits r :=
  fun r hr => ⟨(h r hr).1, fun l hl => ((h r hr).2 l hl).1⟩

/-- C3. Single-end driver, round trip: for every generator, seed and
percentage, every sink that accepts its writes and every input stream of
records of four lines (each line at most 1022 bytes, none NUL, followed by a
newline), the run returns and what it appended to the output is the encoding of
a sublist of the input records (whole records, in input order), each record
written as its own four lines, each followed by exactly one newline. -/
theorem single_round_trip (g : Rng) (out : FILE) (P seed : Int) (verbose : Bool)
    (recs : List (List (List Byte)))
    (h : ∀ r ∈ recs, RecordClean r) (ha : ∀ n, out.accept n = true) :
    ∃ (run : SingleRun g) (emitted : List (List (List Byte))),
      subsample_single_end_fastq g
        { in_file := encode recs, out_file := out, subsample_fraction := P, seed := seed,
          verbose := verbose } = some run ∧
      emitted.Sublist recs ∧
      run.final.out_file.data = out.data ++ encode emitted := by
  obtain ⟨run, hrun, -, -, -, hout, -⟩ :=
    single_run_records g out P seed verbose recs [] (clean_fits recs h)
      (fun lines _ => read_nil_fails lines)
  simp only [List.append_nil] at hrun
  refine ⟨run, select (keepMask g P (g.srand seed) recs.length) recs, hrun,
    select_sublist _ _, ?_⟩
  rw [hout, select_map, writeAll_data _ _ ha (fun r hr => h r (select_mem _ _ _ hr))]

/-- Witness for C3: three records at 50 percent. -/
theorem single_round_trip_witness :
    ∃ (run : SingleRun sampleRng) (emitted : List (List (List Byte))),
      subsample_single_end_fastq sampleRng
        { in_file := encode [recA, recB, recC], out_file := okSink, subsample_fraction := 50,
          seed := 7, verbose := false } = some run ∧
      emitted.Sublist [recA, recB, recC] ∧
      run.final.out_file.data = okSink.data ++ encode emitted :=
  single_round_trip sampleRng okSink 50 7 false [recA, recB, recC] (by decide) (fun _ => rfl)

/-- C4. Single-end driver, decisions: for every percentage (those in 1..100
among them), every generator and seed, every sink and every input of `N`
records whose lines fit,
the run returns; the generator, seeded with the seed, has been advanced by
exactly `N` draws; the records handed to the writer are those at the positions
whose draw modulo 100 is below the percentage (a mask that depends on the
generator, seed, percentage and `N` only); `total = N`, `kept` is the number of
such draws and `kept ≤ N`; and on a sink that accepts its writes, with NUL-free
lines, the output is the encoding of exactly those records. -/
theorem single_decisions (g : Rng) (out : FILE) (P seed : Int) (verbose : Bool)
    (recs : List (List (List Byte)))
    (h : ∀ r ∈ recs, RecordFits r) :
    ∃ run : SingleRun g,
      subsample_single_end_fastq g
        { in_file := encode recs, out_file := out, subsample_fraction := P, seed := seed,
          verbose := verbose } = some run ∧
      run.final.rng = rngAfter g (g.srand seed) recs.length ∧
      run.final.out_file = writeAll out
        (select ((draws g (g.srand seed) recs.length).map
            (fun d => decide (((d % 100 : Nat) : Int) < P)))
          (recs.map (List.map stored))) ∧
      run.final.total_reads = recs.length ∧
      run.final.kept_reads = (draws g (g.srand seed) recs.length).countP
        (fun d => decide (((d % 100 : Nat) : Int) < P)) ∧
      run.final.kept_reads ≤ recs.length ∧
      ((∀ n, out.accept n = true) → (∀ r ∈ recs, RecordClean r) →
        run.final.out_file.data = out.data ++
          encode (select ((draws g (g.srand seed) recs.length).map
            (fun d => decide (((d % 100 : Nat) : Int) < P))) recs)) := by
  obtain ⟨run, hrun, htot, hkept, hrng, hout, -⟩ :=
    single_run_records g out P seed verbose recs [] h (fun lines _ => read_nil_fails lines)
  simp only [List.append_nil] at hrun
  rw [keepMask_eq_draws] at hkept hout
  have hk : run.final.kept_reads = (draws g (g.srand seed) recs.length).countP
      (fun d => decide (((d % 100 : Nat) : Int) < P)) := by
    rw [hkept, count_map_decide]
  refine ⟨run, hrun, hrng, hout, htot, hk, ?_, ?_⟩
  · rw [hk]
    calc List.countP _ (draws g (g.srand seed) recs.length)
        ≤ (draws g (g.srand seed) recs.length).length := List.countP_le_length _
      _ = recs.length := draws_length _ _ _
  · intro ha hc
    rw [hout, select_map, writeAll_data _ _ ha (fun r hr => hc r (select_mem _ _ _ hr))]

/-- Witness for C4: three records at 50 percent. -/
theorem single_decisions_witness :
    ∃ run : SingleRun sampleRng,
      subsample_single_end_fastq sampleRng
        { in_file := encode [recA, recB, recC], out_file := okSink, subsample_fraction := 50,
          seed := 7, verbose := true } = some run ∧
      run.final.rng = rngAfter sampleRng (sampleRng.srand 7) [recA, recB, recC].length ∧
      run.final.out_file = writeAll okSink
        (select ((draws sampleRng (sampleRng.srand 7) [recA, recB, recC].length).map
            (fun d => decide (((d % 100 : Nat) : Int) < 50)))
          ([recA, recB, recC].map (List.map stored))) ∧
      run.final.total_reads = [recA, recB, recC].length ∧
      run.final.kept_reads = (draws sampleRng (sampleRng.srand 7) [recA, recB, recC].length).countP
        (fun d => decide (((d % 100 : Nat) : Int) < 50)) ∧
      run.final.kept_reads ≤ [recA, recB, recC].length ∧
      ((∀ n, okSink.accept n = true) → (∀ r ∈ [recA, recB, recC], RecordClean r) →
        run.final.out_file.data = okSink.data ++
          encode (select ((draws sampleRng (sampleRng.srand 7) [recA, recB, recC].length).map
            (fun d => decide (((d % 100 : Nat) : Int) < 50))) [recA, recB, recC])) :=
  single_decisions sampleRng okSink 50 7 true [recA, recB, recC] (by decide)

/-- C5. With percentage 100 every record is kept, for every generator and
seed: on sinks that accept their writes and inputs of records of four lines
(each at most 1022 bytes, none NUL), the single-end driver appends the whole
input, in order, to its output with `kept = total = N`; and the paired driver
on two streams of `N` records each returns without error and appends each
whole input stream to its own output, with `kept = total = N`. -/
theorem keep_all_at_hundred (g : Rng) (out out1 out2 : FILE) (seed : Int) (verbose : Bool)
    (recs recs1 recs2 : List (List (List Byte)))
    (h : ∀ r ∈ recs, RecordClean r)
    (h1 : ∀ r ∈ recs1, RecordClean r) (h2 : ∀ r ∈ recs2, RecordClean r)
    (hlen : recs1.length = recs2.length)
    (ha : ∀ n, out.accept n = true)
    (ha1 : ∀ n, out1.accept n = true) (ha2 : ∀ n, out2.accept n = true) :
    (∃ run : SingleRun g,
      subsample_single_end_fastq g
        { in_file := encode recs, out_file := out, subsample_fraction := 100, seed := seed,
          verbose := verbose } = some run ∧
      run.final.out_file.data = out.data ++ encode recs ∧
      run.final.kept_reads = recs.length ∧ run.final.total_reads = recs.length) ∧
    (∃ run : PairedRun g,
      subsample_paired_fastq g
        { r1_in := encode recs1, r2_in := encode recs2, r1_out := out1, r2_out := out2,
          subsample_fraction := 100, seed := seed, verbose := verbose } = some run ∧
      run.failure = none ∧
      run.final.r1_out.data = out1.data ++ encode recs1 ∧
      run.final.r2_out.data = out2.data ++ encode recs2 ∧
      run.final.kept_pairs = recs1.length ∧ run.final.total_pairs = recs1.length) := by
  constructor
  · obtain ⟨run, hrun, htot, hkept, -, hout, -⟩ :=
      single_run_records g out 100 seed verbose recs [] (clean_fits recs h)
        (fun lines _ => read_nil_fails lines)
    simp only [List.append_nil] at hrun
    have hall := keepMask_hundred g 100 (le_refl _) recs.length (g.srand seed)
    have hml := keepMask_length g 100 recs.length (g.srand seed)
    refine ⟨run, hrun, ?_, ?_, htot⟩
    · rw [hout, select_map, select_all_true _ _ hml hall, writeAll_data _ _ ha h]
    · rw [hkept, ← select_count _ recs hml, select_all_true _ _ hml hall]
  · obtain ⟨run, hrun, htot, hkept, -, ho1, ho2, hfail, -⟩ :=
      paired_run_records g out1 out2 100 seed verbose recs1 recs2 [] [] false false hlen
        (clean_fits recs1 h1) (clean_fits recs2 h2)
        (fun lines _ => read_nil_fails lines) (fun lines _ => read_nil_fails lines) (by simp)
    simp only [List.append_nil] at hrun
    have hall := keepMask_hundred g 100 (le_refl _) recs1.length (g.srand seed)
    have hml := keepMask_length g 100 recs1.length (g.srand seed)
    refine ⟨run, hrun, ?_, ?_, ?_, ?_, htot⟩
    · simpa using hfail
    · rw [ho1, select_map, select_all_true _ _ hml hall, writeAll_data _ _ ha1 h1]
    · rw [ho2, select_map, select_all_true _ _ (hml.trans hlen) hall,
        writeAll_data _ _ ha2 h2]
    · rw [hkept, ← select_count _ recs1 hml, select_all_true _ _ hml hall]

/-- Witness for C5: paired streams of three records each, and a single stream
of three records. -/
theorem keep_all_at_hundred_witness :
    (∃ run : SingleRun sampleRng,
      subsample_single_end_fastq sampleRng
        { in_file := encode [recA, recB, recC], out_file := okSink, subsample_fraction := 100,
          seed := 3, verbose := false } = some run ∧
      run.final.out_file.data = okSink.data ++ encode [recA, recB, recC] ∧
      run.final.kept_reads = [recA, recB, recC].length ∧
      run.final.total_reads = [recA, recB, recC].length) ∧
    (∃ run : PairedRun sampleRng,
      subsample_paired_fastq sampleRng
        { r1_in := encode [recA, recB, recC], r2_in := encode [recX, recY, recZ],
          r1_out := okSink, r2_out := okSink,
          subsample_fraction := 100, seed := 3, verbose := false } = some run ∧
      run.failure = none ∧
      run.final.r1_out.data = okSink.data ++ encode [recA, recB, recC] ∧
      run.final.r2_out.data = okSink.data ++ encode [recX, recY, recZ] ∧
      run.final.kept_pairs = [recA, recB, recC].length ∧
      run.final.total_pairs = [recA, recB, recC].length) :=
  keep_all_at_hundred sampleRng okSink okSink okSink 3 false [recA, recB, recC]
    [recA, recB, recC] [recX, recY, recZ] (by decide) (by decide) (by decide) (by decide)
    (fun _ => rfl) (fun _ => rfl) (fun _ => rfl)

/-! ## Termination and the sink's irrelevance, on arbitrary input -/

theorem gzgets_take_length (n : Nat) (s : List Byte) :
    (gzgets_take n s).1.length + (gzgets_take n s).2.length = s.length := by
  induction s generalizing n with
  | nil => cases n <;> simp [gzgets_take]
  | cons b s ih =>
    cases n with
    | zero => simp [gzgets_take]
    | succ n =>
      by_cases hb : b = NL
      · simp [gzgets_take, hb]
        omega
      · have := ih n
        simp [gzgets_take, hb]
        omega

theorem gzgets_shrinks (file buf rest : List Byte) (len : Nat)
    (h : gzgets file len = some (buf, rest)) : rest.length < file.length := by
  unfold gzgets at h
  split at h
  · simp at h
  · rename_i hne
    have hlen := gzgets_take_length (len - 1) file
    have hpos : 0 < (gzgets_take (len - 1) file).1.length := List.length_pos.mpr hne
    simp only [Option.some.injEq, Prod.mk.injEq] at h
    rw [← h.2]
    omega

theorem read_from_length_le (k : Nat) :
    ∀ (i : Nat) (file : List Byte) (lines : Lines),
      (read_fastq_record_from i k file lines).2.2.length ≤ file.length := by
  induction k with
  | zero =>
    intro i file lines
    simp [read_fastq_record_from]
  | succ k ih =>
    intro i file lines
    unfold read_fastq_record_from
    cases hg : gzgets file MAX_LINE_LEN with
    | none => simp
    | some p =>
      obtain ⟨buf, rest⟩ := p
      have h1 := gzgets_shrinks file buf rest _ hg
      have h2 := ih (i + 1) rest (lines.set i (buf.set (strcspn_nl buf) NUL))
      simp only
      omega

/-- A successful read consumes at least one byte. -/
theorem read_record_shrinks (file : List Byte) (lines : Lines)
    (h : (read_fastq_record file lines).1 = true) :
    (read_fastq_record file lines).2.2.length < file.length := by
  unfold read_fastq_record at h ⊢
  unfold read_fastq_record_from at h ⊢
  cases hg : gzgets file MAX_LINE_LEN with
  | none => simp [hg] at h
  | some p =>
    obtain ⟨buf, rest⟩ := p
    have h1 := gzgets_shrinks file buf rest _ hg
    have h2 := read_from_length_le 3 (0 + 1) rest (lines.set 0 (buf.set (strcspn_nl buf) NUL))
    simp only
    omega

theorem single_loop_total (g : Rng) (P : Int) (fuel : Nat) :
    ∀ st : SingleState g, st.in_file.length < fuel → ∃ r, single_loop g P fuel st = some r := by
  induction fuel with
  | zero =>
    intro st h
    omega
  | succ fuel ih =>
    intro st h
    rw [single_loop_succ]
    by_cases hr : (read_fastq_record st.in_file st.lines).1 = true
    · have hs := read_record_shrinks _ _ hr
      simp only [hr, if_true]
      split
      · exact ih _ (by simp only; omega)
      · exact ih _ (by simp only; omega)
    · simp only [hr]
      exact ⟨_, rfl⟩

theorem paired_loop_succ (g : Rng) (P : Int) (fuel : Nat) (st : PairedState g) :
    paired_loop g P (fuel + 1) st =
      if (read_fastq_record st.r1_in st.r1_lines).1 = false ∧
          (read_fastq_record st.r2_in st.r2_lines).1 = false then
        some (PairedEnd.finished { st with
          r1_in := (read_fastq_record st.r1_in st.r1_lines).2.2
          r2_in := (read_fastq_record st.r2_in st.r2_lines).2.2
          r1_lines := (read_fastq_record st.r1_in st.r1_lines).2.1
          r2_lines := (read_fastq_record st.r2_in st.r2_lines).2.1 })
      else if (read_fastq_record st.r1_in st.r1_lines).1 = false ∨
          (read_fastq_record st.r2_in st.r2_lines).1 = false then
        some (PairedEnd.unpaired
          (st.r1_count + (if (read_fastq_record st.r1_in st.r1_lines).1 then 1 else 0))
          (st.r2_count + (if (read_fastq_record st.r2_in st.r2_lines).1 then 1 else 0))
          { st with
            r1_in := (read_fastq_record st.r1_in st.r1_lines).2.2
            r2_in := (read_fastq_record st.r2_in st.r2_lines).2.2
            r1_lines := (read_fastq_record st.r1_in st.r1_lines).2.1
            r2_lines := (read_fastq_record st.r2_in st.r2_lines).2.1 })
      else if (((g.rand st.rng).1 % 100 : Nat) : Int) < P then
        paired_loop g P fuel
          { r1_in := (read_fastq_record st.r1_in st.r1_lines).2.2
            r2_in := (read_fastq_record st.r2_in st.r2_lines).2.2
            r1_out := write_fastq_record st.r1_out (read_fastq_record st.r1_in st.r1_lines).2.1
            r2_out := write_fastq_record st.r2_out (read_fastq_record st.r2_in st.r2_lines).2.1
            r1_lines := (read_fastq_record st.r1_in st.r1_lines).2.1
            r2_lines := (read_fastq_record st.r2_in st.r2_lines).2.1
            total_pairs := st.total_pairs + 1
            kept_pairs := st.kept_pairs + 1
            r1_count := st.r1_count + 1
            r2_count := st.r2_count + 1
            rng := (g.rand st.rng).2 }
      else
        paired_loop g P fuel
          { r1_in := (read_fastq_record st.r1_in st.r1_lines).2.2
            r2_in := (read_fastq_record st.r2_in st.r2_lines).2.2
            r1_out := st.r1_out
            r2_out := st.r2_out
            r1_lines := (read_fastq_record st.r1_in st.r1_lines).2.1
            r2_lines := (read_fastq_record st.r2_in st.r2_lines).2.1
            total_pairs := st.total_pairs + 1
            kept_pairs := st.kept_pairs
            r1_count := st.r1_count + 1
            r2_count := st.r2_count + 1
            rng := (g.rand st.rng).2 } := rfl

theorem paired_loop_total (g : Rng) (P : Int) (fuel : Nat) :
    ∀ st : PairedState g, st.r1_in.length < fuel → ∃ e, paired_loop g P fuel st = some e := by
  induction fuel with
  | zero =>
    intro st h
    omega
  | succ fuel ih =>
    intro st h
    rw [paired_loop_succ]
    split
    · exact ⟨_, rfl⟩
    · split
      · exact ⟨_, rfl⟩
      · rename_i h1 h2
        have hr : (read_fastq_record st.r1_in st.r1_lines).1 = true := by
          cases hc : (read_fastq_record st.r1_in st.r1_lines).1
          · exact absurd (Or.inl hc) h2
          · rfl
        have hs := read_record_shrinks _ _ hr
        split
        · exact ih _ (by simp only; omega)
        · exact ih _ (by simp only; omega)

/-- The single-end driver returns on every input. -/
theorem single_run_total (g : Rng) (c : SingleEnd.Config) :
    ∃ run : SingleRun g, subsample_single_end_fastq g c = some run := by
  obtain ⟨r, hr⟩ := single_loop_total g c.subsample_fraction (c.in_file.length + 1)
    { in_file := c.in_file, out_file := c.out_file, lines := Lines.init, total_reads := 0,
      kept_reads := 0, rng := g.srand c.seed } (Nat.lt_succ_self _)
  exact ⟨_, by simp only [subsample_single_end_fastq, hr]; rfl⟩

/-- The paired driver ends on every input. -/
theorem paired_run_total (g : Rng) (c : Paired.Config) :
    ∃ run : PairedRun g, subsample_paired_fastq g c = some run := by
  obtain ⟨e, he⟩ := paired_loop_total g c.subsample_fraction (c.r1_in.length + 1)
    { r1_in := c.r1_in, r2_in := c.r2_in, r1_out := c.r1_out, r2_out := c.r2_out,
      r1_lines := Lines.init, r2_lines := Lines.init, total_pairs := 0, kept_pairs := 0,
      r1_count := 0, r2_count := 0, rng := g.srand c.seed } (Nat.lt_succ_self _)
  exact ⟨_, by simp only [subsample_paired_fastq, he]; rfl⟩

/-- C8. Empty input with the verbose flag: both drivers print the summary and
evaluate `(double)kept / total * 100` with `kept = 0` and `total = 0`; the
divisor of the percentage is zero and the percentage is not left out. -/
theorem empty_input_summary_zero_divisor (g : Rng) (out out1 out2 : FILE) (P seed : Int) :
    (subsample_single_end_fastq g
        { in_file := [], out_file := out, subsample_fraction := P, seed := seed,
          verbose := true }).map (fun run => run.stdout) =
      some [Msg.banner P seed, Msg.total 0, Msg.kept 0 0 0] ∧
    (subsample_paired_fastq g
        { r1_in := [], r2_in := [], r1_out := out1, r2_out := out2, subsample_fraction := P,
          seed := seed, verbose := true }).map (fun run => run.stdout) =
      some [Msg.banner P seed, Msg.total 0, Msg.kept 0 0 0] :=
  ⟨rfl, rfl⟩

/-- C9. A truncated final record is the end of the stream. On a stream of
lines that fit, `read_fastq_record` succeeds exactly when at least four lines
are left, so it reports the end of the stream with none and with one to three
lines left; and on `N` records that fit followed by one, two or three further
lines the single-end driver returns with the same output, the same counters
(`total = N`) and the same summary as on the `N` records alone. -/
theorem truncated_record_is_end_of_stream (g : Rng) (out : FILE) (P seed : Int)
    (verbose : Bool) (recs : List (List (List Byte))) (extra : List (List Byte))
    (hf : ∀ r ∈ recs, RecordFits r) (he : ∀ l ∈ extra, LineFits l)
    (hn : 1 ≤ extra.length ∧ extra.length ≤ 3) :
    (∀ (ls : List (List Byte)) (lines : Lines), (∀ l ∈ ls, LineFits l) →
      ((read_fastq_record (encodeLines ls) lines).1 = true ↔ 4 ≤ ls.length)) ∧
    (∃ run run' : SingleRun g,
      subsample_single_end_fastq g
        { in_file := encode recs ++ encodeLines extra, out_file := out,
          subsample_fraction := P, seed := seed, verbose := verbose } = some run ∧
      subsample_single_end_fastq g
        { in_file := encode recs, out_file := out, subsample_fraction := P, seed := seed,
          verbose := verbose } = some run' ∧
      run.final.out_file = run'.final.out_file ∧
      run.final.total_reads = run'.final.total_reads ∧
      run.final.kept_reads = run'.final.kept_reads ∧
      run.stdout = run'.stdout ∧
      run.final.total_reads = recs.length) := by
  constructor
  · intro ls lines hls
    constructor
    · intro hs
      by_contra hlt
      have := read_short_fails ls lines hls (by omega)
      rw [this] at hs
      exact Bool.noConfusion hs
    · intro h4
      exact read_long_succeeds ls lines hls h4
  · obtain ⟨run, hrun, htot, hkept, -, hout, hstd⟩ :=
      single_run_records g out P seed verbose recs (encodeLines extra) hf
        (fun lines _ => read_short_fails extra lines he (by omega))
    obtain ⟨run', hrun', htot', hkept', -, hout', hstd'⟩ :=
      single_run_records g out P seed verbose recs [] hf (fun lines _ => read_nil_fails lines)
    simp only [List.append_nil] at hrun'
    exact ⟨run, run', hrun, hrun', hout.trans hout'.symm, htot.trans htot'.symm,
      hkept.trans hkept'.symm, hstd.trans hstd'.symm, htot⟩

/-- Witness for C9: two records followed by two further lines. -/
theorem truncated_record_is_end_of_stream_witness :
    (∀ (ls : List (List Byte)) (lines : Lines), (∀ l ∈ ls, LineFits l) →
      ((read_fastq_record (encodeLines ls) lines).1 = true ↔ 4 ≤ ls.length)) ∧
    (∃ run run' : SingleRun sampleRng,
      subsample_single_end_fastq sampleRng
        { in_file := encode [recA, recB] ++ encodeLines [[64, 99], [84, 84, 65]],
          out_file := okSink, subsample_fraction := 50, seed := 7, verbose := true } =
        some run ∧
      subsample_single_end_fastq sampleRng
        { in_file := encode [recA, recB], out_file := okSink, subsample_fraction := 50,
          seed := 7, verbose := true } = some run' ∧
      run.final.out_file = run'.final.out_file ∧
      run.final.total_reads = run'.final.total_reads ∧
      run.final.kept_reads = run'.final.kept_reads ∧
      run.stdout = run'.stdout ∧
      run.final.total_reads = [recA, recB].length) :=
  truncated_record_is_end_of_stream sampleRng okSink 50 7 true [recA, recB]
    [[64, 99], [84, 84, 65]] (by decide) (by decide) (by decide)

/-! ## Lines longer than the buffer -/

theorem single_open_calls_nil (opts : List SingleOpt) :
    ∀ c, single_open_calls c opts = [] ↔ ∀ o ∈ opts, o.opens = false := by
  induction opts with
  | nil => simp [single_open_calls]
  | cons o opts ih =>
    intro c
    cases o <;> simp [single_open_calls, SingleOpt.opens, ih]

theorem paired_open_calls_nil (opts : List PairedOpt) :
    ∀ c, paired_open_calls c opts = [] ↔ ∀ o ∈ opts, o.opens = false := by
  induction opts with
  | nil => simp [paired_open_calls]
  | cons o opts ih =>
    intro c
    cases o <;> simp [paired_open_calls, PairedOpt.opens, ih]

theorem single_parse_loop_calls (fs : FileSystem) (opts : List SingleOpt) :
    ∀ (config : SingleArgs) (calls : List IoCall),
      (∀ config', (single_parse_loop fs opts config calls).2 = Except.ok config' →
        (single_parse_loop fs opts config calls).1 =
          calls ++ single_open_calls config.compress_output opts) ∧
      ((single_parse_loop fs opts config calls).2 = Except.error ParseExit.bad_fraction →
        ∃ pre v post, opts = pre ++ SingleOpt.f v :: post ∧ (v < 1 ∨ v > 100) ∧
          (∀ w, SingleOpt.f w ∈ pre → 1 ≤ w ∧ w ≤ 100) ∧
          (single_parse_loop fs opts config calls).1 =
            calls ++ single_open_calls config.compress_output pre) := by
  induction opts with
  | nil =>
    intro config calls
    simp [single_parse_loop, single_open_calls]
  | cons o opts ih =>
    intro config calls
    cases o with
    | i optarg =>
      by_cases hok : fs.ok (IoCall.gzopen optarg) = true
      · simp only [single_parse_loop, hok, if_true]
        obtain ⟨h1, h2⟩ := ih { config with in_file := some (IoCall.gzopen optarg) }
          (calls ++ [IoCall.gzopen optarg])
        refine ⟨fun c hc => ?_, fun hb => ?_⟩
        · rw [h1 c hc]
          simp [single_open_calls]
        · obtain ⟨pre, v, post, e, hv, hin, ht⟩ := h2 hb
          exact ⟨SingleOpt.i optarg :: pre, v, post, by simp [e], hv,
            fun w hw => hin w (by simpa using hw), by
            rw [ht]; simp [single_open_calls]⟩
      · simp [single_parse_loop, hok]
    | o optarg =>
      by_cases hok : fs.ok (open_output config.compress_output optarg) = true
      · simp only [single_parse_loop, hok, if_true]
        obtain ⟨h1, h2⟩ := ih
          { config with out_file := some (open_output config.compress_output optarg) }
          (calls ++ [open_output config.compress_output optarg])
        refine ⟨fun c hc => ?_, fun hb => ?_⟩
        · rw [h1 c hc]
          simp [single_open_calls]
        · obtain ⟨pre, v, post, e, hv, hin, ht⟩ := h2 hb
          exact ⟨SingleOpt.o optarg :: pre, v, post, by simp [e], hv,
            fun w hw => hin w (by simpa using hw), by
            rw [ht]; simp [single_open_calls]⟩
      · simp [single_parse_loop, hok]
    | f value =>
      by_cases hv : value < 1 ∨ value > 100
      · simp only [single_parse_loop, hv, if_true]
        refine ⟨fun c hc => by simp at hc, fun _ => ⟨[], value, opts, rfl, hv, ?_, ?_⟩⟩
        · intro w hw
          simp at hw
        · simp [single_open_calls]
      · simp only [single_parse_loop, hv, if_false]
        obtain ⟨h1, h2⟩ := ih { config with subsample_fraction := value } calls
        refine ⟨fun c hc => ?_, fun hb => ?_⟩
        · rw [h1 c hc]
          simp [single_open_calls]
        · obtain ⟨pre, v, post, e, hv2, hin, ht⟩ := h2 hb
          refine ⟨SingleOpt.f value :: pre, v, post, by simp [e], hv2, ?_, by
            rw [ht]; simp [single_open_calls]⟩
          intro w hw
          simp only [List.mem_cons, SingleOpt.f.injEq] at hw
          rcases hw with hw | hw
          · subst hw
            omega
          · exact hin w hw
    | s value =>
      simp only [single_parse_loop]
      obtain ⟨h1, h2⟩ := ih { config with seed := value } calls
      refine ⟨fun c hc => ?_, fun hb => ?_⟩
      · rw [h1 c hc]
        simp [single_open_calls]
      · obtain ⟨pre, v, post, e, hv2, hin, ht⟩ := h2 hb
        exact ⟨SingleOpt.s value :: pre, v, post, by simp [e], hv2,
          fun w hw => hin w (by simpa using hw), by
          rw [ht]; simp [single_open_calls]⟩
    | z =>
      simp only [single_parse_loop]
      obtain ⟨h1, h2⟩ := ih { config with compress_output := true } calls
      refine ⟨fun c hc => ?_, fun hb => ?_⟩
      · rw [h1 c hc]
        simp [single_open_calls]
      · obtain ⟨pre, v, post, e, hv2, hin, ht⟩ := h2 hb
        exact ⟨SingleOpt.z :: pre, v, post, by simp [e], hv2,
          fun w hw => hin w (by simpa using hw), by
          rw [ht]; simp [single_open_calls]⟩
    | v =>
      simp only [single_parse_loop]
      obtain ⟨h1, h2⟩ := ih { config with verbose := true } calls
      refine ⟨fun c hc => ?_, fun hb => ?_⟩
      · rw [h1 c hc]
        simp [single_open_calls]
      · obtain ⟨pre, v, post, e, hv2, hin, ht⟩ := h2 hb
        exact ⟨SingleOpt.v :: pre, v, post, by simp [e], hv2,
          fun w hw => hin w (by simpa using hw), by
          rw [ht]; simp [single_open_calls]⟩
    | h => simp [single_parse_loop]
    | unknown => simp [single_parse_loop]

theorem paired_parse_loop_calls (fs : FileSystem) (opts : List PairedOpt) :
    ∀ (config : PairedArgs) (calls : List IoCall),
      (∀ config', (paired_parse_loop fs opts config calls).2 = Except.ok config' →
        (paired_parse_loop fs opts config calls).1 =
          calls ++ paired_open_calls config.compress_output opts) ∧
      ((paired_parse_loop fs opts config calls).2 = Except.error ParseExit.bad_fraction →
        ∃ pre v post, opts = pre ++ PairedOpt.f v :: post ∧ (v < 1 ∨ v > 100) ∧
          (∀ w, PairedOpt.f w ∈ pre → 1 ≤ w ∧ w ≤ 100) ∧
          (paired_parse_loop fs opts config calls).1 =
            calls ++ paired_open_calls config.compress_output pre) := by
  induction opts with
  | nil =>
    intro config calls
    simp [paired_parse_loop, paired_open_calls]
  | cons o opts ih =>
    intro config calls
    cases o with
    | a optarg =>
      by_cases hok : fs.ok (IoCall.gzopen optarg) = true
      · simp only [paired_parse_loop, hok, if_true]
        obtain ⟨h1, h2⟩ := ih { config with r1_in := some (IoCall.gzopen optarg) }
          (calls ++ [IoCall.gzopen optarg])
        refine ⟨fun c hc => ?_, fun hb => ?_⟩
        · rw [h1 c hc]
          simp [paired_open_calls]
        · obtain ⟨pre, v, post, e, hv, hin, ht⟩ := h2 hb
          exact ⟨PairedOpt.a optarg :: pre, v, post, by simp [e], hv,
            fun w hw => hin w (by simpa using hw), by
            rw [ht]; simp [paired_open_calls]⟩
      · simp [paired_parse_loop, hok]
    | b optarg =>
      by_cases hok : fs.ok (IoCall.gzopen optarg) = true
      · simp only [paired_parse_loop, hok, if_true]
        obtain ⟨h1, h2⟩ := ih { config with r2_in := some (IoCall.gzopen optarg) }
          (calls ++ [IoCall.gzopen optarg])
        refine ⟨fun c hc => ?_, fun hb => ?_⟩
        · rw [h1 c hc]
          simp [paired_open_calls]
        · obtain ⟨pre, v, post, e, hv, hin, ht⟩ := h2 hb
          exact ⟨PairedOpt.b optarg :: pre, v, post, by simp [e], hv,
            fun w hw => hin w (by simpa using hw), by
            rw [ht]; simp [paired_open_calls]⟩
      · simp [paired_parse_loop, hok]
    | x optarg =>
      by_cases hok : fs.ok (open_output config.compress_output optarg) = true
      · simp only [paired_parse_loop, hok, if_true]
        obtain ⟨h1, h2⟩ := ih { config with r1_out := some (open_output config.compress_output optarg) }
          (calls ++ [open_output config.compress_output optarg])
        refine ⟨fun c hc => ?_, fun hb => ?_⟩
        · rw [h1 c hc]
          simp [paired_open_calls]
        · obtain ⟨pre, v, post, e, hv, hin, ht⟩ := h2 hb
          exact ⟨PairedOpt.x optarg :: pre, v, post, by simp [e], hv,
            fun w hw => hin w (by simpa using hw), by
            rw [ht]; simp [paired_open_calls]⟩
      · simp [paired_parse_loop, hok]
    | y optarg =>
      by_cases hok : fs.ok (open_output config.compress_output optarg) = true
      · simp only [paired_parse_loop, hok, if_true]
        obtain ⟨h1, h2⟩ := ih { config with r2_out := some (open_output config.compress_output optarg) }
          (calls ++ [open_output config.compress_output optarg])
        refine ⟨fun c hc => ?_, fun hb => ?_⟩
        · rw [h1 c hc]
          simp [paired_open_calls]
        · obtain ⟨pre, v, post, e, hv, hin, ht⟩ := h2 hb
          exact ⟨PairedOpt.y optarg :: pre, v, post, by simp [e], hv,
            fun w hw => hin w (by simpa using hw), by
            rw [ht]; simp [paired_open_calls]⟩
      · simp [paired_parse_loop, hok]
    | f value =>
      by_cases hv : value < 1 ∨ value > 100
      · simp only [paired_parse_loop, hv, if_true]
        refine ⟨fun c hc => by simp at hc, fun _ => ⟨[], value, opts, rfl, hv, ?_, ?_⟩⟩
        · intro w hw
          simp at hw
        · simp [paired_open_calls]
      · simp only [paired_parse_loop, hv, if_false]
        obtain ⟨h1, h2⟩ := ih { config with subsample_fraction := value } calls
        refine ⟨fun c hc => ?_, fun hb => ?_⟩
        · rw [h1 c hc]
          simp [paired_open_calls]
        · obtain ⟨pre, v, post, e, hv2, hin, ht⟩ := h2 hb
          refine ⟨PairedOpt.f value :: pre, v, post, by simp [e], hv2, ?_, by
            rw [ht]; simp [paired_open_calls]⟩
          intro w hw
          simp only [List.mem_cons, PairedOpt.f.injEq] at hw
          rcases hw with hw | hw
          · subst hw
            omega
          · exact hin w hw
    | s value =>
      simp only [paired_parse_loop]
      obtain ⟨h1, h2⟩ := ih { config with seed := value } calls
      refine ⟨fun c hc => ?_, fun hb => ?_⟩
      · rw [h1 c hc]
        simp [paired_open_calls]
      · obtain ⟨pre, v, post, e, hv2, hin, ht⟩ := h2 hb
        exact ⟨PairedOpt.s value :: pre, v, post, by simp [e], hv2,
          fun w hw => hin w (by simpa using hw), by
          rw [ht]; simp [paired_open_calls]⟩
    | z =>
      simp only [paired_parse_loop]
      obtain ⟨h1, h2⟩ := ih { config with compress_output := true } calls
      refine ⟨fun c hc => ?_, fun hb => ?_⟩
      · rw [h1 c hc]
        simp [paired_open_calls]
      · obtain ⟨pre, v, post, e, hv2, hin, ht⟩ := h2 hb
        exact ⟨PairedOpt.z :: pre, v, post, by simp [e], hv2,
          fun w hw => hin w (by simpa using hw), by
          rw [ht]; simp [paired_open_calls]⟩
    | v =>
      simp only [paired_parse_loop]
      obtain ⟨h1, h2⟩ := ih { config with verbose := true } calls
      refine ⟨fun c hc => ?_, fun hb => ?_⟩
      · rw [h1 c hc]
        simp [paired_open_calls]
      · obtain ⟨pre, v, post, e, hv2, hin, ht⟩ := h2 hb
        exact ⟨PairedOpt.v :: pre, v, post, by simp [e], hv2,
          fun w hw => hin w (by simpa using hw), by
          rw [ht]; simp [paired_open_calls]⟩
    | h => simp [paired_parse_loop]
    | unknown => simp [paired_parse_loop]

theorem single_parse_loop_not_missing (fs : FileSystem) (opts : List SingleOpt) :
    ∀ (config : SingleArgs) (calls : List IoCall),
      (single_parse_loop fs opts config calls).2 ≠ Except.error ParseExit.missing_arguments := by
  induction opts with
  | nil =>
    intro config calls
    simp [single_parse_loop]
  | cons o opts ih =>
    intro config calls
    cases o <;> simp only [single_parse_loop] <;> try split
    all_goals first
      | exact ih _ _
      | simp

theorem paired_parse_loop_not_missing (fs : FileSystem) (opts : List PairedOpt) :
    ∀ (config : PairedArgs) (calls : List IoCall),
      (paired_parse_loop fs opts config calls).2 ≠ Except.error ParseExit.missing_arguments := by
  induction opts with
  | nil =>
    intro config calls
    simp [paired_parse_loop]
  | cons o opts ih =>
    intro config calls
    cases o <;> simp only [paired_parse_loop] <;> try split
    all_goals first
      | exact ih _ _
      | simp

/-- What the single-end `parse_args` returns in terms of its option loop. -/
theorem single_args_cases (fs : FileSystem) (now : Int) (opts : List SingleOpt) :
    (single_parse_loop fs opts
        { in_file := none, out_file := none, subsample_fraction := 10, seed := now,
          verbose := false, compress_output := false } []).1 = (SingleEnd.parse_args fs now opts).1 ∧
    ((SingleEnd.parse_args fs now opts).2 = Except.error ParseExit.bad_fraction →
      (single_parse_loop fs opts
        { in_file := none, out_file := none, subsample_fraction := 10, seed := now,
          verbose := false, compress_output := false } []).2 =
        Except.error ParseExit.bad_fraction) ∧
    ((SingleEnd.parse_args fs now opts).2 = Except.error ParseExit.missing_arguments →
      ∃ config, (single_parse_loop fs opts
        { in_file := none, out_file := none, subsample_fraction := 10, seed := now,
          verbose := false, compress_output := false } []).2 = Except.ok config) := by
  have hnm := single_parse_loop_not_missing fs opts
    { in_file := none, out_file := none, subsample_fraction := 10, seed := now,
      verbose := false, compress_output := false } []
  unfold SingleEnd.parse_args
  generalize single_parse_loop fs opts
    { in_file := none, out_file := none, subsample_fraction := 10, seed := now,
      verbose := false, compress_output := false } [] = res at hnm
  obtain ⟨calls, r⟩ := res
  cases r with
  | error e =>
    cases e <;> simp at hnm ⊢
  | ok config =>
    simp only
    split <;> simp

/-- What the paired `parse_args` returns in terms of its option loop. -/
theorem paired_args_cases (fs : FileSystem) (now : Int) (opts : List PairedOpt) :
    (paired_parse_loop fs opts
        { r1_in := none, r2_in := none, r1_out := none, r2_out := none,
          subsample_fraction := 10, seed := now, verbose := false, compress_output := false }
        []).1 = (Paired.parse_args fs now opts).1 ∧
    ((Paired.parse_args fs now opts).2 = Except.error ParseExit.bad_fraction →
      (paired_parse_loop fs opts
        { r1_in := none, r2_in := none, r1_out := none, r2_out := none,
          subsample_fraction := 10, seed := now, verbose := false, compress_output := false }
        []).2 = Except.error ParseExit.bad_fraction) ∧
    ((Paired.parse_args fs now opts).2 = Except.error ParseExit.missing_arguments →
      ∃ config, (paired_parse_loop fs opts
        { r1_in := none, r2_in := none, r1_out := none, r2_out := none,
          subsample_fraction := 10, seed := now, verbose := false, compress_output := false }
        []).2 = Except.ok config) := by
  have hnm := paired_parse_loop_not_missing fs opts
    { r1_in := none, r2_in := none, r1_out := none, r2_out := none,
      subsample_fraction := 10, seed := now, verbose := false, compress_output := false } []
  unfold Paired.parse_args
  generalize paired_parse_loop fs opts
    { r1_in := none, r2_in := none, r1_out := none, r2_out := none,
      subsample_fraction := 10, seed := now, verbose := false, compress_output := false }
    [] = res at hnm
  obtain ⟨calls, r⟩ := res
  cases r with
  | error e =>
    cases e <;> simp at hnm ⊢
  | ok config =>
    simp only
    split <;> simp

/-- C7, the claim as stated fails. With `-i in.fq -o out.fq -f 0` the single-end
`parse_args` exits on the bad percentage after it has opened the input and
created the output; with only `-o out.fq` it exits on the missing input after it
has created the output; the paired `parse_args` with `-a r1.fq -x o1.fq -f 101`
exits after it has opened one input and created one output. -/
theorem config_error_after_opening :
    SingleEnd.parse_args openFs 0
        [SingleOpt.i "in.fq", SingleOpt.o "out.fq", SingleOpt.f 0] =
      ([IoCall.gzopen "in.fq", IoCall.fopen "out.fq"],
        Except.error ParseExit.bad_fraction) ∧
    SingleEnd.parse_args openFs 0 [SingleOpt.o "out.fq"] =
      ([IoCall.fopen "out.fq"], Except.error ParseExit.missing_arguments) ∧
    Paired.parse_args openFs 0
        [PairedOpt.a "r1.fq", PairedOpt.x "o1.fq", PairedOpt.f 101] =
      ([IoCall.gzopen "r1.fq", IoCall.fopen "o1.fq"],
        Except.error ParseExit.bad_fraction) ∧
    ParseExit.status ParseExit.bad_fraction = 1 ∧
    ParseExit.status ParseExit.missing_arguments = 1 :=
  ⟨rfl, rfl, rfl, rfl, rfl⟩

/-- C7, amended. In both programs a configuration error is found inside or
right after the option loop, before the sampling driver runs, but not before
the files named so far have been opened. When `parse_args` exits on a
percentage outside 1..100, the calls made by then are exactly the open calls
(`gzopen`, `fopen` or `popen`) of the options that precede the offending `-f`
(the first one with a bad value);
when it exits on a missing required path, they are the open calls of all the
options given. So no file has been touched exactly when no path option
precedes the error. -/
theorem config_error_after_opens (fs : FileSystem) (now : Int) (opts : List SingleOpt)
    (popts : List PairedOpt) :
    ((SingleEnd.parse_args fs now opts).2 = Except.error ParseExit.bad_fraction →
      ∃ pre v post, opts = pre ++ SingleOpt.f v :: post ∧ (v < 1 ∨ v > 100) ∧
        (∀ w, SingleOpt.f w ∈ pre → 1 ≤ w ∧ w ≤ 100) ∧
        (SingleEnd.parse_args fs now opts).1 = single_open_calls false pre ∧
        ((SingleEnd.parse_args fs now opts).1 = [] ↔ ∀ o ∈ pre, o.opens = false)) ∧
    ((SingleEnd.parse_args fs now opts).2 = Except.error ParseExit.missing_arguments →
      (SingleEnd.parse_args fs now opts).1 = single_open_calls false opts ∧
      ((SingleEnd.parse_args fs now opts).1 = [] ↔ ∀ o ∈ opts, o.opens = false)) ∧
    ((Paired.parse_args fs now popts).2 = Except.error ParseExit.bad_fraction →
      ∃ pre v post, popts = pre ++ PairedOpt.f v :: post ∧ (v < 1 ∨ v > 100) ∧
        (∀ w, PairedOpt.f w ∈ pre → 1 ≤ w ∧ w ≤ 100) ∧
        (Paired.parse_args fs now popts).1 = paired_open_calls false pre ∧
        ((Paired.parse_args fs now popts).1 = [] ↔ ∀ o ∈ pre, o.opens = false)) ∧
    ((Paired.parse_args fs now popts).2 = Except.error ParseExit.missing_arguments →
      (Paired.parse_args fs now popts).1 = paired_open_calls false popts ∧
      ((Paired.parse_args fs now popts).1 = [] ↔ ∀ o ∈ popts, o.opens = false)) := by
  obtain ⟨s1, s2, s3⟩ := single_args_cases fs now opts
  obtain ⟨p1, p2, p3⟩ := paired_args_cases fs now popts
  refine ⟨fun h => ?_, fun h => ?_, fun h => ?_, fun h => ?_⟩
  · obtain ⟨pre, v, post, e, hv, hin, ht⟩ := (single_parse_loop_calls fs opts _ []).2 (s2 h)
    rw [s1] at ht
    simp only [List.nil_append] at ht
    exact ⟨pre, v, post, e, hv, hin, ht, by rw [ht]; exact single_open_calls_nil pre false⟩
  · obtain ⟨config, hc⟩ := s3 h
    have ht := (single_parse_loop_calls fs opts _ []).1 config hc
    rw [s1] at ht
    simp only [List.nil_append] at ht
    exact ⟨ht, by rw [ht]; exact single_open_calls_nil opts false⟩
  · obtain ⟨pre, v, post, e, hv, hin, ht⟩ := (paired_parse_loop_calls fs popts _ []).2 (p2 h)
    rw [p1] at ht
    simp only [List.nil_append] at ht
    exact ⟨pre, v, post, e, hv, hin, ht, by rw [ht]; exact paired_open_calls_nil pre false⟩
  · obtain ⟨config, hc⟩ := p3 h
    have ht := (paired_parse_loop_calls fs popts _ []).1 config hc
    rw [p1] at ht
    simp only [List.nil_append] at ht
    exact ⟨ht, by rw [ht]; exact paired_open_calls_nil popts false⟩

/-- Witness for C7: `-z -i in.fq -o out.fq -f 0` and `-a r1.fq -b r2.fq -x o1.fq`. -/
theorem config_error_after_opens_witness :
    (∃ pre v post,
      [SingleOpt.z, SingleOpt.i "in.fq", SingleOpt.o "out.fq", SingleOpt.f 0] =
        pre ++ SingleOpt.f v :: post ∧ (v < 1 ∨ v > 100) ∧
      (∀ w, SingleOpt.f w ∈ pre → 1 ≤ w ∧ w ≤ 100) ∧
      (SingleEnd.parse_args openFs 0
        [SingleOpt.z, SingleOpt.i "in.fq", SingleOpt.o "out.fq", SingleOpt.f 0]).1 =
        single_open_calls false pre ∧
      ((SingleEnd.parse_args openFs 0
        [SingleOpt.z, SingleOpt.i "in.fq", SingleOpt.o "out.fq", SingleOpt.f 0]).1 = [] ↔
        ∀ o ∈ pre, o.opens = false)) ∧
    ((Paired.parse_args openFs 0
        [PairedOpt.a "r1.fq", PairedOpt.b "r2.fq", PairedOpt.x "o1.fq"]).1 =
        paired_open_calls false
          [PairedOpt.a "r1.fq", PairedOpt.b "r2.fq", PairedOpt.x "o1.fq"] ∧
      ((Paired.parse_args openFs 0
        [PairedOpt.a "r1.fq", PairedOpt.b "r2.fq", PairedOpt.x "o1.fq"]).1 = [] ↔
        ∀ o ∈ [PairedOpt.a "r1.fq", PairedOpt.b "r2.fq", PairedOpt.x "o1.fq"],
          o.opens = false)) :=
  ⟨(config_error_after_opens openFs 0
      [SingleOpt.z, SingleOpt.i "in.fq", SingleOpt.o "out.fq", SingleOpt.f 0]
      [PairedOpt.a "r1.fq", PairedOpt.b "r2.fq", PairedOpt.x "o1.fq"]).1 rfl,
    (config_error_after_opens openFs 0
      [SingleOpt.z, SingleOpt.i "in.fq", SingleOpt.o "out.fq", SingleOpt.f 0]
      [PairedOpt.a "r1.fq", PairedOpt.b "r2.fq", PairedOpt.x "o1.fq"]).2.2.2 rfl⟩

end SubsampleFastq
